import Mathlib

/-!
Verification of the data-transformation layer of the NSIA bond dashboard
(`src/utils/data_loader.py`) against its natural-language specification.

Conventions of the shallow embedding:
* Python floats are modelled as exact rationals (`ℚ`); every parsed dollar
  value in the source is a decimal, so no rounding behaviour is relevant to
  the claims except where stated in comments.
* Python strings are modelled as `List Char` (`Chars`); helper functions
  (`pyStrip`, `pyUpper`, `strStarts`) model the `str.strip`, `str.upper` and
  `str.startswith` methods on the ASCII fragment actually exercised.
* Missing spreadsheet cells (`NaN` / `None`) are modelled as `Option ℚ`;
  `pd.isna` becomes a match on the option.
* Python code that can raise is modelled in `Except Unit`; in particular
  `float(...)` (which raises `ValueError` on bad input) and `/` (which raises
  `ZeroDivisionError` on a zero denominator) return `Except`.
* The spreadsheet loaders themselves perform I/O and are out of scope; the
  functions under verification are parameterised by the loaded tables.
-/

abbrev Chars := List Char

/-- Model of Python `str.strip()` whitespace (ASCII whitespace characters). -/
def isSpaceCh (c : Char) : Bool :=
  c = ' ' || c = '\t' || c = '\n' || c = '\r' || c = '\x0b' || c = '\x0c'

/-- Model of Python `str.strip()`: drop whitespace from both ends. -/
def pyStrip (s : Chars) : Chars :=
  ((s.dropWhile isSpaceCh).reverse.dropWhile isSpaceCh).reverse

/-- Model of Python `str.upper()` (ASCII; the source only compares against
ASCII literals such as `"TBD"`). -/
def pyUpper (s : Chars) : Chars := s.map Char.toUpper

/-- Model of Python `str.startswith(p)`. -/
def strStarts : Chars → Chars → Bool
  | [], _ => true
  | _, [] => false
  | p :: ps, c :: cs => p = c && strStarts ps cs

/-- The literal `"Total"` used by the line-item filters of the source. -/
def totalLit : Chars := "Total".toList

/-- Model of Python `a / b` on floats: raises `ZeroDivisionError` when `b = 0`. -/
def pyDiv (a b : ℚ) : Except Unit ℚ :=
  if b = 0 then .error () else .ok (a / b)

-- ── CSCG contract scorecard (`compute_cscg_scorecard.check_compliance`) ────

/-- Status labels produced by `check_compliance` in the source
(`"AUTO-PAY"`, `"COMPLIANT"`, `"MINOR VARIANCE"`, `"NON-COMPLIANT"`). -/
inductive ComplianceStatus
  | AUTO_PAY | COMPLIANT | MINOR_VARIANCE | NON_COMPLIANT
deriving DecidableEq

/-- Translation of `check_compliance` (data_loader.py lines 493-503).
The source reads `row["6mo Expected"]` (possibly missing, modelled as
`Option ℚ`) and `row["6mo Actual"]`:
```
if pd.isna(row["6mo Expected"]) or row["6mo Expected"] is None: return "AUTO-PAY"
diff = abs(row["6mo Actual"] - row["6mo Expected"])
pct = diff / row["6mo Expected"] if row["6mo Expected"] > 0 else 0
if pct <= 0.02: return "COMPLIANT"
elif pct <= 0.10: return "MINOR VARIANCE"
else: return "NON-COMPLIANT"
```
The division is wrapped in `pyDiv` to make a potential `ZeroDivisionError`
observable; the guard `expected > 0` prevents it from ever being raised. -/
def check_compliance (expected : Option ℚ) (actual : ℚ) :
    Except Unit ComplianceStatus :=
  match expected with
  | none => .ok .AUTO_PAY
  | some e =>
    let diff := |actual - e|
    match (if e > 0 then pyDiv diff e else .ok 0) with
    | .error u => .error u
    | .ok pct =>
      .ok (if pct ≤ 2/100 then .COMPLIANT
           else if pct ≤ 10/100 then .MINOR_VARIANCE
           else .NON_COMPLIANT)

-- ── DSCR (`compute_kpis`, data_loader.py lines 344-349) ────────────────────

/-- Translation of the DSCR computation in `compute_kpis`:
`dscr = net_operating_income / debt_service if debt_service > 0 else 0`.
The division is wrapped in `pyDiv` so a `ZeroDivisionError` would be
observable; the guard prevents it. -/
def dscr (netOperatingIncome debtService : ℚ) : Except Unit ℚ :=
  if debtService > 0 then pyDiv netOperatingIncome debtService else .ok 0

-- ── Reconciliation status (`build_reconciliation_master`, lines 822-831) ───

/-- Status labels of the reconciliation master table (`"Matched"`,
`"Minor Variance"`, `"Major Variance"`, `"No Invoice Trail"`,
`"Budget-Only"`, `"Actual-Only"`). -/
inductive ReconStatus
  | Matched | MinorVariance | MajorVariance | NoInvoiceTrail | BudgetOnly | ActualOnly
deriving DecidableEq

/-- Translation of the status classification of a matched budget group in
`build_reconciliation_master` (data_loader.py lines 822-831), as a pure
function of the three amounts (`ba_var = actual_val - budget_val`):
```
if actual_val == 0 and invoice_val == 0 and budget_val > 0: "Budget-Only"
elif invoice_val == 0 and actual_val > 0: "No Invoice Trail"
elif abs(ba_var) > 5000: "Major Variance"
elif abs(ba_var) > 500: "Minor Variance"
else: "Matched"
``` -/
def reconStatus (budgetVal actualVal invoiceVal : ℚ) : ReconStatus :=
  if actualVal = 0 ∧ invoiceVal = 0 ∧ budgetVal > 0 then .BudgetOnly
  else if invoiceVal = 0 ∧ actualVal > 0 then .NoInvoiceTrail
  else if |actualVal - budgetVal| > 5000 then .MajorVariance
  else if |actualVal - budgetVal| > 500 then .MinorVariance
  else .Matched

-- ── Theorems for C9 / C10 / C4 / C2 ────────────────────────────────────────

/-- C9: the compliance status function returns `AUTO_PAY` whenever the
expected per-period amount is absent, and otherwise (for a positive expected
amount) classifies by the relative deviation `|actual - expected| / expected`:
`COMPLIANT` when it is at most 2%, `MINOR_VARIANCE` when it is at most 10%,
and `NON_COMPLIANT` beyond that. -/
theorem check_compliance_thresholds :
    (∀ a : ℚ, check_compliance none a = .ok .AUTO_PAY) ∧
    (∀ e a : ℚ, 0 < e →
      check_compliance (some e) a =
        .ok (if |a - e| / e ≤ 2/100 then .COMPLIANT
             else if |a - e| / e ≤ 10/100 then .MINOR_VARIANCE
             else .NON_COMPLIANT)) := by
  constructor
  · intro a; rfl
  · intro e a he
    have hne : e ≠ 0 := ne_of_gt he
    simp only [check_compliance, pyDiv, if_pos he, if_neg hne]

/-- Witness for C9 at the scorecard examples of the spec: expected 21000 with
actual 21000 is `COMPLIANT`, with 21500 is `MINOR_VARIANCE` (deviation about
2.38%), with 25000 is `NON_COMPLIANT` (about 19%), and an absent expected
amount is `AUTO_PAY`. -/
theorem check_compliance_thresholds_witness :
    check_compliance (some 21000) 21000 = .ok .COMPLIANT ∧
    check_compliance (some 21000) 21500 = .ok .MINOR_VARIANCE ∧
    check_compliance (some 21000) 25000 = .ok .NON_COMPLIANT ∧
    check_compliance none 12345 = .ok .AUTO_PAY := by
  refine ⟨?_, ?_, ?_, check_compliance_thresholds.1 12345⟩
  · rw [check_compliance_thresholds.2 21000 21000 (by norm_num)]
    rw [if_pos (by norm_num)]
  · rw [check_compliance_thresholds.2 21000 21500 (by norm_num)]
    rw [if_neg (by rw [abs_of_nonneg (by norm_num)]; norm_num),
        if_pos (by rw [abs_of_nonneg (by norm_num)]; norm_num)]
  · rw [check_compliance_thresholds.2 21000 25000 (by norm_num)]
    rw [if_neg (by rw [abs_of_nonneg (by norm_num)]; norm_num),
        if_neg (by rw [abs_of_nonneg (by norm_num)]; norm_num)]

/-- C10: when the expected per-period amount is present but equal to zero,
the guard `expected > 0` fails, the deviation is taken to be 0, and the
status is `COMPLIANT` for every actual amount. -/
theorem check_compliance_zero_expected (a : ℚ) :
    check_compliance (some 0) a = .ok .COMPLIANT := by
  simp only [check_compliance, gt_iff_lt, lt_irrefl, if_false]
  norm_num

/-- C4 (amended): both guarded divisions never raise, but they short-circuit
to the number 0 rather than to null/undefined: `dscr` returns `0` when the
debt service is not positive, and the compliance deviation is taken to be `0`
(hence `COMPLIANT`) when the expected amount is not positive. `ℚ` has no NaN,
and the guards prevent the only division that could fail. -/
theorem division_by_zero_short_circuit_amended :
    (∀ noi ds : ℚ, ∃ q, dscr noi ds = .ok q) ∧
    (∀ noi ds : ℚ, ds ≤ 0 → dscr noi ds = .ok 0) ∧
    (∀ e a : ℚ, ∃ s, check_compliance (some e) a = .ok s) ∧
    (∀ e a : ℚ, e ≤ 0 → check_compliance (some e) a = .ok .COMPLIANT) := by
  have hd : ∀ noi ds : ℚ, ds ≤ 0 → dscr noi ds = .ok 0 := by
    intro noi ds h
    simp only [dscr, if_neg (not_lt.mpr h)]
  have hc : ∀ e a : ℚ, e ≤ 0 → check_compliance (some e) a = .ok .COMPLIANT := by
    intro e a h
    simp only [check_compliance, gt_iff_lt, if_neg (not_lt.mpr h)]
    norm_num
  refine ⟨?_, hd, ?_, hc⟩
  · intro noi ds
    by_cases h : ds > 0
    · exact ⟨noi / ds, by simp only [dscr, pyDiv, if_pos h, if_neg (ne_of_gt h)]⟩
    · exact ⟨0, hd noi ds (not_lt.mp h)⟩
  · intro e a
    by_cases h : e > 0
    · refine ⟨if |a - e| / e ≤ 2/100 then .COMPLIANT
              else if |a - e| / e ≤ 10/100 then .MINOR_VARIANCE
              else .NON_COMPLIANT, ?_⟩
      exact check_compliance_thresholds.2 e a h
    · exact ⟨.COMPLIANT, hc e a (not_lt.mp h)⟩

/-- Counterexample for C4 as stated: with debt service exactly 0, the DSCR
computation yields the number 0 (`Except.ok 0`), not null/undefined: a
concrete numeric value is produced and passed onward. -/
theorem dscr_zero_yields_zero_not_null : dscr 100 0 = .ok 0 := by
  simp only [dscr, gt_iff_lt, lt_irrefl, if_false]

/-- Witness for C4 (amended) at concrete inputs. -/
theorem division_by_zero_witness :
    dscr 5 0 = .ok 0 ∧ check_compliance (some 0) 7 = .ok .COMPLIANT :=
  ⟨division_by_zero_short_circuit_amended.2.1 5 0 (le_refl 0),
   division_by_zero_short_circuit_amended.2.2.2 0 7 (le_refl 0)⟩

/-- Counterexample for C2 as stated: with budgetAmount 1000 and actualAmount
1500 (absolute difference exactly 500, invoice nonzero) the code classifies
the row `Matched`, not `MinorVariance`, because the comparison is strict
(`> 500`). -/
theorem reconStatus_diff500_not_minor :
    reconStatus 1000 1500 1500 = .Matched ∧
    ReconStatus.Matched ≠ ReconStatus.MinorVariance := by
  constructor
  · simp only [reconStatus]
    rw [if_neg (by norm_num), if_neg (by norm_num),
        if_neg (by rw [abs_of_nonneg (by norm_num)]; norm_num),
        if_neg (by rw [abs_of_nonneg (by norm_num)]; norm_num)]
  · simp

/-- C2 (amended): with budgetAmount 1000 and a nonzero invoice amount, an
actualAmount of 1500 (difference exactly 500) is classified `Matched`
(strict threshold), 1501 (difference 501) is `MinorVariance`, and 6001
(difference 5001) is `MajorVariance`. -/
theorem reconStatus_boundaries_amended (i : ℚ) (hi : i ≠ 0) :
    reconStatus 1000 1500 i = .Matched ∧
    reconStatus 1000 1501 i = .MinorVariance ∧
    reconStatus 1000 6001 i = .MajorVariance := by
  refine ⟨?_, ?_, ?_⟩ <;>
    simp only [reconStatus] <;>
    rw [if_neg (by norm_num), if_neg (by simp [hi])]
  · rw [show |(1500:ℚ) - 1000| = 500 by rw [abs_of_nonneg] <;> norm_num,
        if_neg (by norm_num), if_neg (by norm_num)]
  · rw [show |(1501:ℚ) - 1000| = 501 by rw [abs_of_nonneg] <;> norm_num,
        if_neg (by norm_num), if_pos (by norm_num)]
  · rw [show |(6001:ℚ) - 1000| = 5001 by rw [abs_of_nonneg] <;> norm_num,
        if_pos (by norm_num)]

/-- Witness for C2 (amended) at invoice amount 1. -/
theorem reconStatus_boundaries_witness :
    reconStatus 1000 1500 1 = .Matched ∧
    reconStatus 1000 1501 1 = .MinorVariance ∧
    reconStatus 1000 6001 1 = .MajorVariance :=
  reconStatus_boundaries_amended 1 one_ne_zero

-- ── Generic sorting model (pandas `sort_values`) ───────────────────────────

/-- Insertion of an element into a list, keeping `le`-order. -/
def insertSorted (le : α → α → Bool) (x : α) : List α → List α
  | [] => [x]
  | y :: ys => if le x y then x :: y :: ys else y :: insertSorted le x ys

/-- Insertion sort; models `DataFrame.sort_values` (which merely permutes the
rows; none of the verified claims depends on the resulting order). -/
def insertionSortBy (le : α → α → Bool) : List α → List α
  | [] => []
  | x :: xs => insertSorted le x (insertionSortBy le xs)

theorem perm_insertSorted (le : α → α → Bool) (x : α) :
    ∀ l : List α, List.Perm (insertSorted le x l) (x :: l) := by
  intro l
  induction l with
  | nil => exact .refl _
  | cons y ys ih =>
    simp only [insertSorted]
    by_cases h : le x y
    · rw [if_pos h]
    · rw [if_neg h]
      exact .trans (.cons y ih) (.swap x y ys)

theorem perm_insertionSortBy (le : α → α → Bool) :
    ∀ l : List α, List.Perm (insertionSortBy le l) l := by
  intro l
  induction l with
  | nil => exact .refl _
  | cons x xs ih =>
    exact .trans (perm_insertSorted le x (insertionSortBy le xs)) (.cons x ih)

-- ── Variance alerts (`compute_variance_alerts`, lines 366-419) ─────────────

/-- Severity labels (`"RED"`, `"YELLOW"`, `"GREEN"`). -/
inductive Severity | RED | YELLOW | GREEN
deriving DecidableEq

/-- One row of the revenue/expense reconciliation tables as consumed by
`compute_variance_alerts`: the `Line Item` cell may be missing (NaN) and the
numeric cells are possibly-missing rationals. -/
structure VarRow where
  lineItem : Option Chars
  proposalYtd : Option ℚ
  cscgYtd : Option ℚ
  varDollars : Option ℚ
  varPct : Option ℚ
  assessment : Chars
deriving DecidableEq

/-- One emitted alert row. -/
structure Alert where
  category : Chars
  lineItem : Chars
  proposalYtd : Option ℚ
  cscgYtd : Option ℚ
  varDollars : Option ℚ
  varPct : Option ℚ
  severity : Severity
  assessment : Chars
deriving DecidableEq

/-- Translation of the severity chain of `compute_variance_alerts`
(lines 394-400):
```
if abs_pct >= 0.50 or abs_var >= 10000: "RED"
elif abs_pct >= threshold_pct or abs_var >= 2000: "YELLOW"
else: "GREEN"
``` -/
def severityOf (thresholdPct absPct absVar : ℚ) : Severity :=
  if absPct ≥ 50/100 ∨ absVar ≥ 10000 then .RED
  else if absPct ≥ thresholdPct ∨ absVar ≥ 2000 then .YELLOW
  else .GREEN

/-- Translation of the `pct` recomputation (lines 387-389): when the sheet's
`YTD Variance %` is missing and the proposal is present and nonzero,
`pct = (cscg - proposal) / abs(proposal)` if the CSCG figure is present,
else `None`; otherwise the sheet value is kept. -/
def pctOf (r : VarRow) : Option ℚ :=
  match r.varPct with
  | some p => some p
  | none =>
    match r.proposalYtd with
    | some prop =>
      if prop ≠ 0 then
        match r.cscgYtd with
        | some c => some ((c - prop) / |prop|)
        | none => none
      else none
    | none => none

/-- Translation of one iteration of the row loop of
`compute_variance_alerts` (lines 373-411): skip missing or `Total` line
items, skip rows with both proposal and CSCG YTD missing, otherwise emit an
alert whose severity classifies `abs(pct)` (0 when missing) and
`abs(variance)` (0 when missing). -/
def alertOfRow (thresholdPct : ℚ) (category : Chars) (r : VarRow) : Option Alert :=
  match r.lineItem with
  | none => none
  | some item =>
    if strStarts totalLit item then none
    else if r.proposalYtd.isNone && r.cscgYtd.isNone then none
    else
      some { category := category, lineItem := item,
             proposalYtd := r.proposalYtd, cscgYtd := r.cscgYtd,
             varDollars := r.varDollars, varPct := pctOf r,
             severity := severityOf thresholdPct
               (((pctOf r).map abs).getD 0) ((r.varDollars.map abs).getD 0),
             assessment := r.assessment }

/-- A `VarRow` survives the two `continue` filters of the loop. -/
def alertKept (r : VarRow) : Bool :=
  match r.lineItem with
  | none => false
  | some item =>
    !(strStarts totalLit item) && !(r.proposalYtd.isNone && r.cscgYtd.isNone)

/-- Translation of `compute_variance_alerts` (lines 366-419): the loop over
`[("Revenue", rev), ("Expense", exp)]` produces the concatenation of the two
per-table row lists, then the result is sorted (RED first, then by variance
dollars; missing sort keys last, as pandas places NaN last). -/
def sevRank : Severity → ℕ
  | .RED => 0
  | .YELLOW => 1
  | .GREEN => 2

/-- Sort comparator of `compute_variance_alerts` (lines 414-417): severity
rank ascending (RED first), then variance dollars ascending, missing values
last (pandas places NaN last). -/
def alertLe (a b : Alert) : Bool :=
  decide (sevRank a.severity < sevRank b.severity) ||
  (decide (sevRank a.severity = sevRank b.severity) &&
    match a.varDollars, b.varDollars with
    | some x, some y => decide (x ≤ y)
    | some _, none => true
    | none, some _ => false
    | none, none => true)

/-- The list of alert rows accumulated by the two loops of lines 373-411
(revenue rows first, then expense rows), before sorting. -/
def alertRows (thresholdPct : ℚ) (rev exp : List VarRow) : List Alert :=
  rev.filterMap (alertOfRow thresholdPct "Revenue".toList) ++
  exp.filterMap (alertOfRow thresholdPct "Expense".toList)

/-- Translation of `compute_variance_alerts` (lines 366-419). When every row
of both tables is skipped, `pd.DataFrame([])` has no columns at all, so line
416 (`result["Severity"]`) raises `KeyError` — modelled as `.error ()`;
otherwise the accumulated rows are sorted by severity rank then descending
absolute dollar variance. -/
def compute_variance_alerts (thresholdPct : ℚ) (rev exp : List VarRow) :
    Except Unit (List Alert) :=
  if alertRows thresholdPct rev exp = [] then .error ()
  else .ok (insertionSortBy alertLe (alertRows thresholdPct rev exp))

theorem alertOfRow_isSome (t : ℚ) (cat : Chars) (r : VarRow) :
    (alertOfRow t cat r).isSome = alertKept r := by
  unfold alertOfRow alertKept
  match r.lineItem with
  | none => rfl
  | some item =>
    by_cases h1 : strStarts totalLit item <;>
      by_cases h2 : (r.proposalYtd.isNone && r.cscgYtd.isNone) = true <;>
        simp [h1, h2]

theorem severityOf_spec (t absPct absVar : ℚ) :
    ((severityOf t absPct absVar = .RED ↔ (absPct ≥ 50/100 ∨ absVar ≥ 10000)) ∧
     (severityOf t absPct absVar = .YELLOW ↔
        (¬(absPct ≥ 50/100 ∨ absVar ≥ 10000) ∧ (absPct ≥ t ∨ absVar ≥ 2000))) ∧
     (severityOf t absPct absVar = .GREEN ↔
        (¬(absPct ≥ 50/100 ∨ absVar ≥ 10000) ∧ ¬(absPct ≥ t ∨ absVar ≥ 2000)))) := by
  unfold severityOf
  by_cases h1 : absPct ≥ 50/100 ∨ absVar ≥ 10000 <;>
    by_cases h2 : absPct ≥ t ∨ absVar ≥ 2000 <;>
    simp [h1, h2]

theorem alertOfRow_fields (t : ℚ) (cat : Chars) (r : VarRow) (a : Alert)
    (h : alertOfRow t cat r = some a) :
    a.varPct = pctOf r ∧ a.varDollars = r.varDollars ∧
    a.severity = severityOf t (((pctOf r).map abs).getD 0)
      ((r.varDollars.map abs).getD 0) := by
  unfold alertOfRow at h
  split at h
  · exact absurd h (by simp)
  · split at h
    · exact absurd h (by simp)
    · split at h
      · exact absurd h (by simp)
      · have ha := Option.some_injective _ h
        subst ha
        exact ⟨rfl, rfl, rfl⟩

theorem filterMap_alertOfRow_length (t : ℚ) (cat : Chars) (l : List VarRow) :
    (l.filterMap (alertOfRow t cat)).length = (l.filter alertKept).length := by
  rw [List.length_filterMap_eq_countP, ← List.countP_eq_length_filter]
  exact List.countP_congr (fun r _ => by rw [alertOfRow_isSome t cat r])

theorem alertRows_length (t : ℚ) (rev exp : List VarRow) :
    (alertRows t rev exp).length
      = (rev.filter alertKept).length + (exp.filter alertKept).length := by
  unfold alertRows
  rw [List.length_append, filterMap_alertOfRow_length, filterMap_alertOfRow_length]

theorem alerts_ok_perm (t : ℚ) (rev exp : List VarRow) (out : List Alert)
    (h : compute_variance_alerts t rev exp = .ok out) :
    List.Perm out (alertRows t rev exp) := by
  unfold compute_variance_alerts at h
  split at h
  · exact absurd h (by simp)
  · exact (Except.ok.inj h) ▸ perm_insertionSortBy alertLe (alertRows t rev exp)

/-- Counterexample for C8 as stated: a revenue line whose proposed and
actual YTD amounts are both absent is not "excluded from the output
entirely" — when it is the only line, there is no output at all: every row
is skipped, the result `DataFrame` is empty and column-less, and line 416
(`result["Severity"]`) raises `KeyError`. -/
theorem variance_alert_empty_raises :
    compute_variance_alerts (5/100)
      [⟨some "Ice Rental".toList, none, none, none, none, []⟩] [] = .error () := rfl

/-- C8 (amended): whenever the function returns a table, every emitted line
with a defined variance percent and defined variance dollars has severity
`RED` exactly when `|pct| ≥ 0.50` or `|dollars| ≥ 10000`, otherwise `YELLOW`
exactly when `|pct| ≥ thresholdPct` or `|dollars| ≥ 2000`, otherwise
`GREEN`; and that table has exactly one row per surviving input row, so rows
whose proposed and actual YTD amounts are both absent (and rows with a
missing or `Total` line item) are excluded from it. The function returns no
table — it raises `KeyError` at the sort step (line 416) — exactly when
every row of both input tables is skipped. -/
theorem variance_alert_severity_amended (t : ℚ) (rev exp : List VarRow) :
    (∀ out, compute_variance_alerts t rev exp = .ok out →
      (∀ a ∈ out, ∀ p d : ℚ,
        a.varPct = some p → a.varDollars = some d →
          ((a.severity = .RED ↔ (|p| ≥ 50/100 ∨ |d| ≥ 10000)) ∧
           (a.severity = .YELLOW ↔
              (¬(|p| ≥ 50/100 ∨ |d| ≥ 10000) ∧ (|p| ≥ t ∨ |d| ≥ 2000))) ∧
           (a.severity = .GREEN ↔
              (¬(|p| ≥ 50/100 ∨ |d| ≥ 10000) ∧ ¬(|p| ≥ t ∨ |d| ≥ 2000))))) ∧
      out.length = (rev.filter alertKept).length + (exp.filter alertKept).length) ∧
    (compute_variance_alerts t rev exp = .error () ↔
      (rev.filter alertKept).length + (exp.filter alertKept).length = 0) := by
  constructor
  · intro out hout
    have hperm := alerts_ok_perm t rev exp out hout
    constructor
    · intro a ha p d hp hd
      have hmem : a ∈ alertRows t rev exp := hperm.mem_iff.mp ha
      have hsome : ∃ cat r, alertOfRow t cat r = some a := by
        rcases List.mem_append.mp hmem with hm | hm
        · obtain ⟨r, _, hr⟩ := List.mem_filterMap.mp hm
          exact ⟨_, r, hr⟩
        · obtain ⟨r, _, hr⟩ := List.mem_filterMap.mp hm
          exact ⟨_, r, hr⟩
      obtain ⟨cat, r, hr⟩ := hsome
      obtain ⟨hpct, hvd, hsev⟩ := alertOfRow_fields t cat r a hr
      rw [hpct] at hp
      rw [hvd] at hd
      rw [hsev, hp, hd]
      simpa using severityOf_spec t |p| |d|
    · rw [hperm.length_eq, alertRows_length]
  · constructor
    · intro herr
      have hempty : alertRows t rev exp = [] := by
        by_contra hne
        unfold compute_variance_alerts at herr
        rw [if_neg hne] at herr
        exact absurd herr (by simp)
      rw [← alertRows_length, hempty]
      rfl
    · intro hz
      have hempty : alertRows t rev exp = [] := by
        rw [← List.length_eq_zero, alertRows_length]
        exact hz
      unfold compute_variance_alerts
      rw [if_pos hempty]

/-- Witness for C8 (amended): a revenue line with variance percent 2 (200%)
and variance dollars 15000 is emitted into a one-row table and classified
`RED`, and the function does not raise on that input. -/
theorem variance_alert_severity_witness :
    ∃ out, compute_variance_alerts (5/100)
        [⟨some "Ice Rental".toList, some 10000, some 15000, some 15000, some 2, []⟩] []
        = .ok out ∧
      ∃ a ∈ out, a.severity = .RED := by
  set r0 : VarRow :=
    ⟨some "Ice Rental".toList, some 10000, some 15000, some 15000, some 2, []⟩ with hr0
  obtain ⟨a0, ha0⟩ : ∃ a, alertOfRow (5/100) "Revenue".toList r0 = some a := by
    have h := alertOfRow_isSome (5/100) "Revenue".toList r0
    have hk : alertKept r0 = true := by decide
    rw [hk] at h
    exact Option.isSome_iff_exists.mp h
  have hrows : alertRows (5/100) [r0] [] = [a0] := by
    unfold alertRows
    rw [List.filterMap_cons, ha0]
    simp
  have hok : compute_variance_alerts (5/100) [r0] []
      = .ok (insertionSortBy alertLe [a0]) := by
    unfold compute_variance_alerts
    rw [hrows]
    rw [if_neg (by simp)]
  have hsorted : insertionSortBy alertLe [a0] = [a0] := by
    simp [insertionSortBy, insertSorted]
  rw [hsorted] at hok
  have hmem : a0 ∈ [a0] := List.mem_singleton_self a0
  have hflds := alertOfRow_fields (5/100) "Revenue".toList r0 a0 ha0
  have hp : a0.varPct = some 2 := by rw [hflds.1]; rfl
  have hd : a0.varDollars = some 15000 := by rw [hflds.2.1]
  have hiff := (variance_alert_severity_amended (5/100) [r0] []).1 [a0] hok
  exact ⟨[a0], hok,
    ⟨a0, hmem, (hiff.1 a0 hmem 2 15000 hp hd).1.mpr (Or.inr (by norm_num))⟩⟩

-- ── Reconciliation master (`build_reconciliation_master`, lines 724-889) ───

/-- One budget row as consumed by `build_reconciliation_master` (from the
expense reconciliation sheet): the line-item text plus the two YTD budget
columns (`"CSCG YTD Budget"`, `"Proposal YTD Budget"`), possibly missing. -/
structure BudgetRow where
  lineItem : Chars
  cscgYtd : Option ℚ
  proposalYtd : Option ℚ
deriving DecidableEq

/-- One expense-flow row (`"Expense Category"`, `"YTD per Financials"`,
`"YTD from Invoices"`, `"Approval Method"`). -/
structure FlowRow where
  category : Chars
  ytdFin : Option ℚ
  ytdInv : Option ℚ
  approval : Chars
deriving DecidableEq

/-- One output row of the reconciliation master table. -/
structure ReconRow where
  lineItem : Chars
  budget : ℚ
  actual : ℚ
  invoice : ℚ
  baVar : Option ℚ
  aiVar : Option ℚ
  approval : Chars
  status : ReconStatus
deriving DecidableEq

/-- Translation of the explicit `budget_to_flow` name mapping
(lines 733-763), in source order. -/
def budget_to_flow : List (Chars × Chars) := [
  ("Electric".toList, "Electric (Engie)".toList),
  ("Gas (Nicor)".toList, "Gas (Nicor)".toList),
  ("Janitorial Supplies".toList, "Janitorial Supplies (Ramrod)".toList),
  ("Insurance (Liab/Prop/D&O)".toList, "Insurance - Liab, Prop, D&O".toList),
  ("Snowplow".toList, "Landscaping/Snow".toList),
  ("Landscaping".toList, "Landscaping/Snow".toList),
  ("Propane".toList, "Propane".toList),
  ("Building Maintenance".toList, "Building Maintenance".toList),
  ("Outside Consultants".toList, "Auditor/Consultants".toList),
  ("Legal Fees".toList, "Auditor/Consultants".toList),
  ("Cable/Internet".toList, "Cable/Internet".toList),
  ("Security".toList, "Security".toList),
  ("Operation Supplies".toList, "Operation Supplies".toList),
  ("Office Payroll".toList, "Office Payroll".toList),
  ("Operations Payroll".toList, "Operations Payroll".toList),
  ("Workers Comp Insurance".toList, "Workers Comp Insurance".toList),
  ("Men\x27s League Payroll".toList, "Men\x27s League Payroll".toList),
  ("Management Fees".toList, "Management Fees".toList),
  ("Land Lease".toList, "Land Lease (Techny)".toList),
  ("Techny Loan Interest".toList, "Techny Loan Interest".toList),
  ("Interest Expense (DSRF)".toList, "Bond Interest (DSRF)".toList),
  ("Property Taxes".toList, "Property Taxes".toList),
  ("Trustee Admin Fee".toList, "Trustee Admin Fee (UMB)".toList),
  ("Scrubber Lease".toList, "Scrubber Lease".toList),
  ("Scoreboard Software (Expense)".toList, "Scoreboard Software".toList),
  ("On Ice Instruction".toList, "Youth Programs (instruction)".toList),
  ("Off Ice Instruction".toList, "Youth Programs (instruction)".toList),
  ("Advertising/Marketing (Youth)".toList, "Youth Programs (instruction)".toList),
  ("Youth Program Supplies".toList, "Youth Programs (instruction)".toList)]

/-- Dictionary lookup `budget_to_flow.get(item)`. -/
def mapGet (k : Chars) : Option Chars :=
  (budget_to_flow.find? (fun p => decide (p.1 = k))).map (fun p => p.2)

/-- The key under which a flow row is stored in `flow_lookup`
(`str(row["Expense Category"]).strip()`, line 768). -/
def flowKey (fr : FlowRow) : Chars := pyStrip fr.category

/-- The `flow_lookup` dict (lines 766-769): maps a stripped category name to
its row; a later row with the same category overwrites an earlier one, hence
the lookup over the reversed list. -/
def flow_lookup (F : List FlowRow) (cat : Chars) : Option FlowRow :=
  F.reverse.find? (fun fr => decide (flowKey fr = cat))

/-- Category resolution for one budget item (lines 780-786):
`mapped = budget_to_flow.get(item)`; if mapped and present in `flow_lookup`,
group under the mapped name; else if the item name itself is a flow category,
group under the item name; else unmatched. -/
def resolveCat (F : List FlowRow) (item : Chars) : Option Chars :=
  match mapGet item with
  | some m =>
    if (flow_lookup F m).isSome then some m
    else if (flow_lookup F item).isSome then some item
    else none
  | none =>
    if (flow_lookup F item).isSome then some item
    else none

/-- A budget row survives the loop filter
`if item.startswith("Total") or not item: continue` (lines 778-779),
where `item = str(br["Line Item"]).strip()`. -/
def validItem (br : BudgetRow) : Bool :=
  !(strStarts totalLit (pyStrip br.lineItem)) && !(pyStrip br.lineItem).isEmpty

/-- `flow_groups[cat].append(br)` on an insertion-ordered association list,
modelling the `defaultdict(list)` of line 773. -/
def addToGroups (gs : List (Chars × List BudgetRow)) (cat : Chars) (br : BudgetRow) :
    List (Chars × List BudgetRow) :=
  if gs.any (fun g => decide (g.1 = cat)) then
    gs.map (fun g => if g.1 = cat then (g.1, g.2 ++ [br]) else g)
  else gs ++ [(cat, [br])]

/-- One iteration of the grouping loop (lines 776-786). -/
def splitStep (F : List FlowRow) (acc : List (Chars × List BudgetRow) × List BudgetRow)
    (br : BudgetRow) : List (Chars × List BudgetRow) × List BudgetRow :=
  if !(validItem br) then acc
  else
    match resolveCat F (pyStrip br.lineItem) with
    | some c => (addToGroups acc.1 c br, acc.2)
    | none => (acc.1, acc.2 ++ [br])

/-- The grouping loop: partitions the budget rows into `flow_groups`
(insertion-ordered) and `unmatched_budget` (lines 771-786). -/
def splitBudget (F : List FlowRow) (B : List BudgetRow) :
    List (Chars × List BudgetRow) × List BudgetRow :=
  B.foldl (splitStep F) ([], [])

/-- Per-row budget figure (lines 802-805 / 812-815): prefer
`"CSCG YTD Budget"`, fall back to `"Proposal YTD Budget"`, then 0 when both
are missing. -/
def rowBudget (br : BudgetRow) : ℚ :=
  match br.cscgYtd with
  | some v => v
  | none => br.proposalYtd.getD 0

/-- Model of `" + ".join(names)`. -/
def joinPlus : List Chars → Chars
  | [] => []
  | [s] => s
  | s :: rest => s ++ " + ".toList ++ joinPlus rest

/-- Group budget value (lines 799-816): a single-row group uses that row's
figure; a many-to-one group sums the per-row figures. -/
def groupBudget : List BudgetRow → ℚ
  | [br] => rowBudget br
  | brs => (brs.map rowBudget).sum

/-- Group label (lines 799-817): a single-row group is labelled by the
stripped item name; a many-to-one group by
`flow_cat + " (" + " + ".join(names) + ")"`. -/
def groupLabel (cat : Chars) : List BudgetRow → Chars
  | [br] => pyStrip br.lineItem
  | brs => cat ++ " (".toList ++ joinPlus (brs.map (fun br => pyStrip br.lineItem)) ++ ")".toList

/-- Placeholder flow row; `flow_lookup[flow_cat]` in the source cannot fail
for a grouped category (groups are only formed for keys present in the
lookup), so the default is never reached. -/
def defaultFlowRow : FlowRow := ⟨[], none, none, []⟩

/-- One output row for a matched budget group (lines 792-842). -/
def mkGroupRow (F : List FlowRow) (g : Chars × List BudgetRow) : ReconRow :=
  { lineItem := groupLabel g.1 g.2,
    budget := groupBudget g.2,
    actual := (((flow_lookup F g.1).getD defaultFlowRow).ytdFin).getD 0,
    invoice := (((flow_lookup F g.1).getD defaultFlowRow).ytdInv).getD 0,
    baVar := some ((((flow_lookup F g.1).getD defaultFlowRow).ytdFin).getD 0
                   - groupBudget g.2),
    aiVar := some ((((flow_lookup F g.1).getD defaultFlowRow).ytdInv).getD 0
                   - (((flow_lookup F g.1).getD defaultFlowRow).ytdFin).getD 0),
    approval := ((flow_lookup F g.1).getD defaultFlowRow).approval,
    status := reconStatus (groupBudget g.2)
      ((((flow_lookup F g.1).getD defaultFlowRow).ytdFin).getD 0)
      ((((flow_lookup F g.1).getD defaultFlowRow).ytdInv).getD 0) }

/-- One output row for an unmatched budget item (lines 845-860); note the
Python truthiness in `-budget_val if budget_val else None`. -/
def mkUnmatchedRow (br : BudgetRow) : ReconRow :=
  { lineItem := pyStrip br.lineItem,
    budget := rowBudget br,
    actual := 0, invoice := 0,
    baVar := if rowBudget br ≠ 0 then some (-(rowBudget br)) else none,
    aiVar := none, approval := [], status := .BudgetOnly }

/-- One output row for a flow category with no matching budget group
(lines 863-882); rows with both values zero are skipped. -/
def mkActualOnly (fr : FlowRow) : Option ReconRow :=
  if fr.ytdFin.getD 0 = 0 ∧ fr.ytdInv.getD 0 = 0 then none
  else some { lineItem := flowKey fr, budget := 0,
              actual := fr.ytdFin.getD 0, invoice := fr.ytdInv.getD 0,
              baVar := some (fr.ytdFin.getD 0),
              aiVar := some (fr.ytdInv.getD 0 - fr.ytdFin.getD 0),
              approval := fr.approval, status := .ActualOnly }

/-- The unsorted output rows: matched groups, then unmatched budget items,
then actual-only flow categories (`seen_flow_cats` is exactly the set of
group keys). -/
def reconRows (B : List BudgetRow) (F : List FlowRow) : List ReconRow :=
  (splitBudget F B).1.map (mkGroupRow F) ++
  (splitBudget F B).2.map mkUnmatchedRow ++
  (F.filter (fun fr =>
    !((splitBudget F B).1.any (fun g => decide (g.1 = flowKey fr))))).filterMap mkActualOnly

/-- Sort comparator of lines 886-887: absolute budget-actual variance
(missing treated as 0) descending. -/
def reconLe (a b : ReconRow) : Bool :=
  decide (((b.baVar.map abs).getD 0) ≤ ((a.baVar.map abs).getD 0))

/-- Translation of `build_reconciliation_master` (lines 724-889),
parameterised by the loaded budget and expense-flow tables. When no row at
all is produced (every budget row skipped, every flow row matched or zero),
`pd.DataFrame([])` has no columns, so line 886
(`result["Budget-Actual Variance"]`) raises `KeyError` — modelled as
`.error ()`; otherwise the rows are sorted by descending absolute
budget-actual variance. -/
def build_reconciliation_master (B : List BudgetRow) (F : List FlowRow) :
    Except Unit (List ReconRow) :=
  if reconRows B F = [] then .error ()
  else .ok (insertionSortBy reconLe (reconRows B F))

-- ── C6: status precedence ──────────────────────────────────────────────────

/-- Status classification exactly as worded in the specification (§4.4 step
3): `BudgetOnly` when actual and invoice are both zero and budget is
positive; else `NoInvoiceTrail` when invoice is zero and actual is positive;
else `MajorVariance` when `|budgetAmount - actualAmount| > 5000`; else
`MinorVariance` when `|budgetAmount - actualAmount| > 500`; else `Matched`. -/
def specStatus (budgetAmount actualAmount invoiceAmount : ℚ) : ReconStatus :=
  if actualAmount = 0 ∧ invoiceAmount = 0 ∧ budgetAmount > 0 then .BudgetOnly
  else if invoiceAmount = 0 ∧ actualAmount > 0 then .NoInvoiceTrail
  else if |budgetAmount - actualAmount| > 5000 then .MajorVariance
  else if |budgetAmount - actualAmount| > 500 then .MinorVariance
  else .Matched

theorem reconStatus_eq_specStatus (b a i : ℚ) :
    reconStatus b a i = specStatus b a i := by
  unfold reconStatus specStatus
  rw [abs_sub_comm a b]

/-- C6: every reconciliation row built from a budget group matched to a flow
record carries the status given by the specification's precedence chain,
applied to the row's own stored budget, actual and invoice amounts. -/
theorem reconStatus_precedence_spec (F : List FlowRow) (g : Chars × List BudgetRow) :
    (mkGroupRow F g).status =
      specStatus (mkGroupRow F g).budget (mkGroupRow F g).actual
        (mkGroupRow F g).invoice :=
  reconStatus_eq_specStatus _ _ _

-- ── C5: group budget aggregation and label ─────────────────────────────────

theorem build_ok_perm (B : List BudgetRow) (F : List FlowRow) (out : List ReconRow)
    (h : build_reconciliation_master B F = .ok out) :
    List.Perm out (reconRows B F) := by
  unfold build_reconciliation_master at h
  split at h
  · exact absurd h (by simp)
  · exact (Except.ok.inj h) ▸ perm_insertionSortBy reconLe (reconRows B F)

theorem build_ok_of_ne_nil (B : List BudgetRow) (F : List FlowRow)
    (h : reconRows B F ≠ []) :
    build_reconciliation_master B F
      = .ok (insertionSortBy reconLe (reconRows B F)) := by
  unfold build_reconciliation_master
  rw [if_neg h]

/-- C5: for every budget group produced by the grouping loop, the function
returns a table, the table has a row for the group, that row's budget amount
is the sum, over the group's rows, of that row's CSCG YTD figure when
present and its Proposal YTD figure otherwise (the fallback is per-row); and
when more than one budget row contributes, the row label is the flow
category name followed by the stripped item names joined with `" + "` inside
parentheses. -/
theorem group_budget_sum_and_label (B : List BudgetRow) (F : List FlowRow)
    (g : Chars × List BudgetRow) (hg : g ∈ (splitBudget F B).1) :
    ∃ out, build_reconciliation_master B F = .ok out ∧
    ∃ r ∈ out,
      r.budget = (g.2.map (fun br =>
        match br.cscgYtd with
        | some v => v
        | none => br.proposalYtd.getD 0)).sum ∧
      (1 < g.2.length →
        r.lineItem = g.1 ++ " (".toList ++
          joinPlus (g.2.map (fun br => pyStrip br.lineItem)) ++ ")".toList) := by
  have hmem : mkGroupRow F g ∈ reconRows B F :=
    List.mem_append.mpr (Or.inl (List.mem_append.mpr
      (Or.inl (List.mem_map_of_mem (mkGroupRow F) hg))))
  have hne : reconRows B F ≠ [] := by
    intro h
    rw [h] at hmem
    exact absurd hmem (List.not_mem_nil _)
  refine ⟨insertionSortBy reconLe (reconRows B F), build_ok_of_ne_nil B F hne,
    mkGroupRow F g, ?_, ?_, ?_⟩
  · exact (perm_insertionSortBy reconLe (reconRows B F)).mem_iff.mpr hmem
  · show groupBudget g.2 = _
    match g.2 with
    | [] => rfl
    | [br] => simp [groupBudget, rowBudget]
    | br1 :: br2 :: rest => rfl
  · intro hlen
    show groupLabel g.1 g.2 = _
    match g.2, hlen with
    | br1 :: br2 :: rest, _ => rfl

/-- Budget table of the spec's many-to-one example: two instruction lines. -/
def sampleBudgetC5 : List BudgetRow :=
  [⟨"On Ice Instruction".toList, none, some 5000⟩,
   ⟨"Off Ice Instruction".toList, none, some 3000⟩]

/-- Flow table of the spec's many-to-one example. -/
def sampleFlowC5 : List FlowRow :=
  [⟨"Youth Programs (instruction)".toList, some 7000, some 7000, []⟩]

/-- Witness for C5 at the spec's many-to-one example: the two instruction
lines (5000 and 3000) produce a single row with budget 8000 whose label
contains both original names. -/
theorem group_budget_sum_and_label_witness :
    ∃ out, build_reconciliation_master sampleBudgetC5 sampleFlowC5 = .ok out ∧
    ∃ r ∈ out,
      r.budget = 8000 ∧
      r.lineItem =
        "Youth Programs (instruction) (On Ice Instruction + Off Ice Instruction)".toList := by
  have hsplit : (splitBudget sampleFlowC5 sampleBudgetC5).1 =
      [("Youth Programs (instruction)".toList, sampleBudgetC5)] := rfl
  have hg : ("Youth Programs (instruction)".toList, sampleBudgetC5)
      ∈ (splitBudget sampleFlowC5 sampleBudgetC5).1 := by
    rw [hsplit]; exact List.mem_singleton_self _
  obtain ⟨out, hout, r, hmem, hb, hl⟩ :=
    group_budget_sum_and_label sampleBudgetC5 sampleFlowC5
      ("Youth Programs (instruction)".toList, sampleBudgetC5) hg
  refine ⟨out, hout, r, hmem, ?_, ?_⟩
  · rw [hb]
    show ((sampleBudgetC5.map fun br =>
      match br.cscgYtd with
      | some v => v
      | none => br.proposalYtd.getD 0).sum : ℚ) = 8000
    simp [sampleBudgetC5]
    norm_num
  · rw [hl (by decide)]
    rfl

-- ── C1: coverage lemmas ────────────────────────────────────────────────────

theorem addToGroups_keys (gs : List (Chars × List BudgetRow)) (cat : Chars)
    (br : BudgetRow) :
    (addToGroups gs cat br).map (fun g => g.1)
      = if gs.any (fun g => decide (g.1 = cat)) then gs.map (fun g => g.1)
        else gs.map (fun g => g.1) ++ [cat] := by
  unfold addToGroups
  by_cases hmem : gs.any (fun g => decide (g.1 = cat)) = true
  · rw [if_pos hmem, if_pos hmem, List.map_map]
    apply List.map_congr_left
    intro x _
    by_cases hx : x.1 = cat
    · simp [hx]
    · simp [hx]
  · rw [if_neg hmem, if_neg hmem, List.map_append]
    rfl

theorem addToGroups_nodup (gs : List (Chars × List BudgetRow)) (cat : Chars)
    (br : BudgetRow) (hnd : (gs.map (fun g => g.1)).Nodup) :
    ((addToGroups gs cat br).map (fun g => g.1)).Nodup := by
  rw [addToGroups_keys]
  by_cases hmem : gs.any (fun g => decide (g.1 = cat)) = true
  · rwa [if_pos hmem]
  · rw [if_neg hmem]
    have hnotin : cat ∉ gs.map (fun g => g.1) := by
      intro hin
      obtain ⟨g, hg, hkey⟩ := List.mem_map.mp hin
      exact hmem (List.any_eq_true.mpr ⟨g, hg, by simp [hkey]⟩)
    simp [List.nodup_append, hnotin, hnd]

theorem addToGroups_sizes (gs : List (Chars × List BudgetRow)) (cat : Chars)
    (br : BudgetRow) (hnd : (gs.map (fun g => g.1)).Nodup) :
    ((addToGroups gs cat br).map (fun g => g.2.length)).sum
      = (gs.map (fun g => g.2.length)).sum + 1 := by
  unfold addToGroups
  by_cases hmem : gs.any (fun g => decide (g.1 = cat)) = true
  · rw [if_pos hmem]
    induction gs with
    | nil => simp at hmem
    | cons g rest ih =>
      rw [List.map_cons, List.nodup_cons] at hnd
      by_cases hg : g.1 = cat
      · have hrest : rest.map
            (fun x => if x.1 = cat then (x.1, x.2 ++ [br]) else x) = rest := by
          have := List.map_congr_left (l := rest)
            (f := fun x => if x.1 = cat then (x.1, x.2 ++ [br]) else x) (g := id)
            (fun x hx => by
              have hxne : x.1 ≠ cat := by
                intro hxc
                apply hnd.1
                have hxmem : x.1 ∈ rest.map (fun g => g.1) :=
                  List.mem_map_of_mem (fun g => g.1) hx
                rwa [hxc, ← hg] at hxmem
              simp [hxne])
          simpa using this
        simp only [List.map_cons, List.map_map, List.sum_cons, if_pos hg]
        rw [show rest.map ((fun g => g.2.length) ∘
              fun x => if x.1 = cat then (x.1, x.2 ++ [br]) else x)
            = rest.map (fun g => g.2.length) by rw [← List.map_map, hrest]]
        simp [List.length_append]
        omega
      · have hany : rest.any (fun g => decide (g.1 = cat)) = true := by
          rcases List.any_eq_true.mp hmem with ⟨x, hx, hxc⟩
          rcases List.mem_cons.mp hx with h | h
          · exact absurd (of_decide_eq_true (h ▸ hxc)) hg
          · exact List.any_eq_true.mpr ⟨x, h, hxc⟩
        simp only [List.map_cons, List.sum_cons, if_neg hg]
        rw [ih hnd.2 hany]
        omega
  · rw [if_neg hmem]
    simp

theorem splitBudget_loop (F : List FlowRow) (B : List BudgetRow) :
    ∀ acc : List (Chars × List BudgetRow) × List BudgetRow,
      (acc.1.map (fun g => g.1)).Nodup →
      ((B.foldl (splitStep F) acc).1.map (fun g => g.1)).Nodup ∧
      ((B.foldl (splitStep F) acc).1.map (fun g => g.2.length)).sum
        + (B.foldl (splitStep F) acc).2.length
        = (acc.1.map (fun g => g.2.length)).sum + acc.2.length
          + (B.filter validItem).length := by
  induction B with
  | nil => intro acc h; exact ⟨h, by simp⟩
  | cons br rest ih =>
    intro acc hnd
    rw [List.foldl_cons]
    by_cases hv : validItem br = true
    · cases hres : resolveCat F (pyStrip br.lineItem) with
      | some c =>
        have hstep : splitStep F acc br = (addToGroups acc.1 c br, acc.2) := by
          unfold splitStep; rw [hv, hres]; rfl
        rw [hstep]
        have hnd2 : ((addToGroups acc.1 c br).map (fun g => g.1)).Nodup :=
          addToGroups_nodup acc.1 c br hnd
        obtain ⟨h1, h2⟩ := ih (addToGroups acc.1 c br, acc.2) hnd2
        refine ⟨h1, ?_⟩
        rw [h2]
        simp only [addToGroups_sizes acc.1 c br hnd]
        rw [List.filter_cons_of_pos hv, List.length_cons]
        omega
      | none =>
        have hstep : splitStep F acc br = (acc.1, acc.2 ++ [br]) := by
          unfold splitStep; rw [hv, hres]; rfl
        rw [hstep]
        obtain ⟨h1, h2⟩ := ih (acc.1, acc.2 ++ [br]) hnd
        refine ⟨h1, ?_⟩
        rw [h2]
        rw [List.filter_cons_of_pos hv, List.length_cons]
        simp [List.length_append]
        omega
    · have hstep : splitStep F acc br = acc := by
        unfold splitStep
        rw [Bool.not_eq_true] at hv
        rw [hv]
        rfl
      rw [hstep]
      obtain ⟨h1, h2⟩ := ih acc hnd
      refine ⟨h1, ?_⟩
      rw [h2, List.filter_cons_of_neg (by simp [hv])]

theorem addToGroups_ne_nil (gs : List (Chars × List BudgetRow)) (cat : Chars)
    (br : BudgetRow) (h : ∀ g ∈ gs, g.2 ≠ []) :
    ∀ g ∈ addToGroups gs cat br, g.2 ≠ [] := by
  intro g hg
  unfold addToGroups at hg
  split at hg
  · obtain ⟨x, hx, hxg⟩ := List.mem_map.mp hg
    by_cases hxc : x.1 = cat
    · rw [if_pos hxc] at hxg
      rw [← hxg]
      simp
    · rw [if_neg hxc] at hxg
      rw [← hxg]
      exact h x hx
  · rcases List.mem_append.mp hg with hm | hm
    · exact h g hm
    · rw [List.mem_singleton] at hm
      rw [hm]
      simp

theorem splitBudget_groups_ne_nil (F : List FlowRow) (B : List BudgetRow) :
    ∀ g ∈ (splitBudget F B).1, g.2 ≠ [] := by
  unfold splitBudget
  have hgen : ∀ (Bl : List BudgetRow)
      (acc : List (Chars × List BudgetRow) × List BudgetRow),
      (∀ g ∈ acc.1, g.2 ≠ []) →
      ∀ g ∈ (Bl.foldl (splitStep F) acc).1, g.2 ≠ [] := by
    intro Bl
    induction Bl with
    | nil => intro acc h; exact h
    | cons br rest ih =>
      intro acc hacc
      rw [List.foldl_cons]
      apply ih
      by_cases hv : validItem br = true
      · cases hres : resolveCat F (pyStrip br.lineItem) with
        | some c =>
          have hstep : splitStep F acc br = (addToGroups acc.1 c br, acc.2) := by
            unfold splitStep; rw [hv, hres]; rfl
          rw [hstep]
          exact addToGroups_ne_nil acc.1 c br hacc
        | none =>
          have hstep : splitStep F acc br = (acc.1, acc.2 ++ [br]) := by
            unfold splitStep; rw [hv, hres]; rfl
          rw [hstep]
          exact hacc
      · have hstep : splitStep F acc br = acc := by
          unfold splitStep
          rw [Bool.not_eq_true] at hv
          rw [hv]
          rfl
        rw [hstep]
        exact hacc
  exact hgen B ([], []) (by simp)

theorem reconStatus_ne_ActualOnly (b a i : ℚ) : reconStatus b a i ≠ .ActualOnly := by
  unfold reconStatus
  split_ifs <;> simp

theorem mkActualOnly_isSome (fr : FlowRow) :
    (mkActualOnly fr).isSome
      = !(decide (fr.ytdFin.getD 0 = 0) && decide (fr.ytdInv.getD 0 = 0)) := by
  by_cases h1 : fr.ytdFin.getD 0 = 0 <;> by_cases h2 : fr.ytdInv.getD 0 = 0 <;>
    simp [mkActualOnly, h1, h2]

theorem mkActualOnly_status (fr : FlowRow) (r : ReconRow)
    (h : mkActualOnly fr = some r) : r.status = .ActualOnly := by
  unfold mkActualOnly at h
  split at h
  · exact absurd h (by simp)
  · have := Option.some_injective _ h
    subst this
    rfl

theorem find_self_of_nodup (fr : FlowRow) :
    ∀ l : List FlowRow, (l.map flowKey).Nodup → fr ∈ l →
      l.find? (fun x => decide (flowKey x = flowKey fr)) = some fr := by
  intro l
  induction l with
  | nil => intro _ h; simp at h
  | cons x rest ih =>
    intro hnd hmem
    rw [List.map_cons, List.nodup_cons] at hnd
    by_cases hx : flowKey x = flowKey fr
    · rcases List.mem_cons.mp hmem with h | h
      · subst h
        simp [List.find?_cons, hx]
      · exfalso
        apply hnd.1
        have : flowKey fr ∈ rest.map flowKey := List.mem_map_of_mem flowKey h
        rwa [← hx] at this
    · have hfr : fr ∈ rest := by
        rcases List.mem_cons.mp hmem with h | h
        · exact absurd (h ▸ rfl) (h ▸ hx)
        · exact h
      rw [List.find?_cons_of_neg _ (by simp [hx])]
      exact ih hnd.2 hfr

theorem flow_lookup_self (F : List FlowRow) (hnd : (F.map flowKey).Nodup)
    (fr : FlowRow) (hmem : fr ∈ F) : flow_lookup F (flowKey fr) = some fr := by
  unfold flow_lookup
  apply find_self_of_nodup
  · rw [List.map_reverse]
    exact List.nodup_reverse.mpr hnd
  · exact List.mem_reverse.mpr hmem

theorem filterMap_mkActualOnly_length (l : List FlowRow) :
    (l.filterMap mkActualOnly).length
      = (l.filter (fun fr =>
          !(decide (fr.ytdFin.getD 0 = 0) && decide (fr.ytdInv.getD 0 = 0)))).length := by
  rw [List.length_filterMap_eq_countP, ← List.countP_eq_length_filter]
  exact List.countP_congr fun a _ => by rw [mkActualOnly_isSome]

/-- C1 (amended): assuming the flow table's stripped category names are
distinct (the join keys its lookup by category, so an earlier duplicate
row's values are unreachable), the grouping loop accounts for every budget
row whose stripped line item is nonempty and does not start with `"Total"`
exactly once — the groups and the unmatched list partition them; whenever
the function returns a table, each group and each unmatched row yields
exactly one of its rows, every flow row not matched by category with a
nonzero actual or invoice value appears exactly once with status
`ActualOnly` (these are exactly the `ActualOnly` rows), and every matched
flow row's values appear in a row that is not `ActualOnly`. The function
returns no table — line 886 raises `KeyError` on the empty frame — exactly
when no budget row survives the skip filter and every flow row's actual and
invoice values are both zero. -/
theorem reconciliation_coverage_amended (B : List BudgetRow) (F : List FlowRow)
    (hnd : (F.map flowKey).Nodup) :
    ((splitBudget F B).1.map (fun g => g.2.length)).sum + (splitBudget F B).2.length
        = (B.filter validItem).length ∧
    (∀ out, build_reconciliation_master B F = .ok out →
      out.length
          = (splitBudget F B).1.length + (splitBudget F B).2.length
            + (F.filter (fun fr =>
                !(decide (fr.ytdFin.getD 0 = 0) && decide (fr.ytdInv.getD 0 = 0)) &&
                !((splitBudget F B).1.any (fun g => decide (g.1 = flowKey fr))))).length ∧
      (out.filter (fun r => decide (r.status = .ActualOnly))).length
          = (F.filter (fun fr =>
              !(decide (fr.ytdFin.getD 0 = 0) && decide (fr.ytdInv.getD 0 = 0)) &&
              !((splitBudget F B).1.any (fun g => decide (g.1 = flowKey fr))))).length ∧
      (∀ fr ∈ F, ((splitBudget F B).1.any (fun g => decide (g.1 = flowKey fr))) = true →
        ∃ r ∈ out,
          r.actual = fr.ytdFin.getD 0 ∧ r.invoice = fr.ytdInv.getD 0 ∧
          r.status ≠ .ActualOnly)) ∧
    (build_reconciliation_master B F = .error () ↔
      (B.filter validItem).length = 0 ∧
      (F.filter (fun fr =>
          !(decide (fr.ytdFin.getD 0 = 0) && decide (fr.ytdInv.getD 0 = 0)))).length
        = 0) := by
  have hpart1 : ((splitBudget F B).1.map (fun g => g.2.length)).sum
      + (splitBudget F B).2.length = (B.filter validItem).length := by
    have h := (splitBudget_loop F B ([], []) (by simp)).2
    simpa using h
  refine ⟨hpart1, ?_, ?_⟩
  · intro out hout
    have hperm := build_ok_perm B F out hout
    refine ⟨?_, ?_, ?_⟩
    · rw [hperm.length_eq]
      unfold reconRows
      rw [List.length_append, List.length_append, List.length_map, List.length_map,
          filterMap_mkActualOnly_length, List.filter_filter]
    · rw [← List.countP_eq_length_filter,
          hperm.countP_eq (fun r => decide (r.status = .ActualOnly))]
      unfold reconRows
      rw [List.countP_append, List.countP_append]
      have hg0 : ((splitBudget F B).1.map (mkGroupRow F)).countP
          (fun r => decide (r.status = .ActualOnly)) = 0 := by
        rw [List.countP_map]
        apply List.countP_eq_zero.mpr
        intro g _
        simp only [Function.comp_apply, decide_eq_true_eq]
        exact reconStatus_ne_ActualOnly (groupBudget g.2)
          ((((flow_lookup F g.1).getD defaultFlowRow).ytdFin).getD 0)
          ((((flow_lookup F g.1).getD defaultFlowRow).ytdInv).getD 0)
      have hu0 : ((splitBudget F B).2.map mkUnmatchedRow).countP
          (fun r => decide (r.status = .ActualOnly)) = 0 := by
        rw [List.countP_map]
        apply List.countP_eq_zero.mpr
        intro br _
        simp [Function.comp_apply, mkUnmatchedRow]
      have hall : ((F.filter (fun fr =>
          !((splitBudget F B).1.any (fun g => decide (g.1 = flowKey fr))))).filterMap
            mkActualOnly).countP (fun r => decide (r.status = .ActualOnly))
          = ((F.filter (fun fr =>
              !((splitBudget F B).1.any (fun g => decide (g.1 = flowKey fr))))).filterMap
                mkActualOnly).length := by
        apply List.countP_eq_length.mpr
        intro r hr
        obtain ⟨fr, _, hfr⟩ := List.mem_filterMap.mp hr
        simp [mkActualOnly_status fr r hfr]
      rw [hg0, hu0, hall, filterMap_mkActualOnly_length, List.filter_filter]
      omega
    · intro fr hfr hany
      obtain ⟨g, hg, hkey⟩ := List.any_eq_true.mp hany
      have hkey2 : g.1 = flowKey fr := of_decide_eq_true hkey
      refine ⟨mkGroupRow F g, ?_, ?_, ?_, ?_⟩
      · exact hperm.mem_iff.mpr (List.mem_append.mpr (Or.inl (List.mem_append.mpr
          (Or.inl (List.mem_map_of_mem (mkGroupRow F) hg)))))
      · show (((flow_lookup F g.1).getD defaultFlowRow).ytdFin).getD 0 = _
        rw [hkey2, flow_lookup_self F hnd fr hfr]
        rfl
      · show (((flow_lookup F g.1).getD defaultFlowRow).ytdInv).getD 0 = _
        rw [hkey2, flow_lookup_self F hnd fr hfr]
        rfl
      · exact reconStatus_ne_ActualOnly _ _ _
  · constructor
    · intro herr
      have hempty : reconRows B F = [] := by
        by_contra hne
        unfold build_reconciliation_master at herr
        rw [if_neg hne] at herr
        exact absurd herr (by simp)
      have hlen0 : (reconRows B F).length = 0 := by rw [hempty]; rfl
      unfold reconRows at hlen0
      rw [List.length_append, List.length_append, List.length_map, List.length_map,
          filterMap_mkActualOnly_length, List.filter_filter] at hlen0
      have hgs : (splitBudget F B).1 = [] := List.length_eq_zero.mp (by omega)
      have hum : (splitBudget F B).2 = [] := List.length_eq_zero.mp (by omega)
      constructor
      · rw [← hpart1, hgs, hum]
        rfl
      · have h3 : (F.filter (fun fr =>
            !(decide (fr.ytdFin.getD 0 = 0) && decide (fr.ytdInv.getD 0 = 0)) &&
            !((splitBudget F B).1.any (fun g => decide (g.1 = flowKey fr))))).length
            = 0 := by
          omega
        rw [hgs] at h3
        simpa using h3
    · rintro ⟨hb, hf⟩
      have h1 := hpart1
      rw [hb] at h1
      have hum : (splitBudget F B).2 = [] := List.length_eq_zero.mp (by omega)
      have hsum : ((splitBudget F B).1.map (fun g => g.2.length)).sum = 0 := by omega
      have hgs : (splitBudget F B).1 = [] := by
        cases hgse : (splitBudget F B).1 with
        | nil => rfl
        | cons g rest =>
          exfalso
          have hne := splitBudget_groups_ne_nil F B g
            (by rw [hgse]; exact List.mem_cons_self g rest)
          rw [hgse, List.map_cons, List.sum_cons] at hsum
          exact hne (List.length_eq_zero.mp (by omega))
      have hempty : reconRows B F = [] := by
        unfold reconRows
        rw [hgs, hum]
        simp only [List.map_nil, List.nil_append, List.any_nil, Bool.not_false,
          List.filter_true]
        rw [← List.length_eq_zero, filterMap_mkActualOnly_length]
        exact hf
      unfold build_reconciliation_master
      rw [if_pos hempty]

/-- Counterexample for C1 as stated: (i) with a two-row budget table whose
first row's line item starts with `"Total"`, the output has a single row in
which only the other budget row appears — lines 778-779 silently skip the
`Total` row, although the claim promises every row of B appears in exactly
one output row (and when such a skipped row is the only budget row and the
flow table is empty, no row at all is produced, so line 886 raises
`KeyError` instead of returning a table); and (ii) with two flow rows of
the same category, the category-keyed lookup reaches only the later one:
the earlier row's nonzero values (11) appear in no output row, so a flow
row can be absent from the output even though its values are nonzero and
its category is matched. -/
theorem reconciliation_coverage_counterexample :
    (build_reconciliation_master
        [⟨"Total Expenses".toList, some 5, none⟩, ⟨"Electric".toList, none, some 100⟩]
        [⟨"Electric (Engie)".toList, some 50, some 50, []⟩]).map
      (fun l => l.map (fun r => r.lineItem))
      = .ok ["Electric".toList] ∧
    (build_reconciliation_master
        [⟨"Electric".toList, none, some 100⟩]
        [⟨"Electric (Engie)".toList, some 11, some 11, []⟩,
         ⟨"Electric (Engie)".toList, some 50, some 50, []⟩]).map
      (fun l => l.map (fun r => (r.lineItem, r.actual)))
      = .ok [("Electric".toList, (50 : ℚ))] :=
  ⟨rfl, rfl⟩

/-- Budget table for the C1 witness: one matched line. -/
def sampleBudgetC1 : List BudgetRow := [⟨"Electric".toList, none, some 100⟩]

/-- Flow table for the C1 witness: the matched category plus one unmatched
nonzero category. -/
def sampleFlowC1 : List FlowRow :=
  [⟨"Electric (Engie)".toList, some 50, some 50, []⟩,
   ⟨"Propane".toList, some 7, none, []⟩]

/-- Witness for C1 (amended) at a concrete pair of tables with distinct flow
categories: the partition count holds, and the function does not raise
because a row survives. -/
theorem reconciliation_coverage_witness :
    ((splitBudget sampleFlowC1 sampleBudgetC1).1.map (fun g => g.2.length)).sum
        + (splitBudget sampleFlowC1 sampleBudgetC1).2.length
        = (sampleBudgetC1.filter validItem).length ∧
    ¬(build_reconciliation_master sampleBudgetC1 sampleFlowC1 = .error ()) := by
  have h := reconciliation_coverage_amended sampleBudgetC1 sampleFlowC1 (by decide)
  refine ⟨h.1, ?_⟩
  intro herr
  have hz := (h.2.2.mp herr).1
  rw [show (sampleBudgetC1.filter validItem).length = 1 from rfl] at hz
  exact one_ne_zero hz

-- ── Dollar-value normalizer (`_clean_dollar`, lines 17-32) ─────────────────

/-- ASCII digit test (`\d` of the source regex on its ASCII fragment). -/
def isDig (c : Char) : Bool := decide (48 ≤ c.toNat) && decide (c.toNat ≤ 57)

/-- Numeric value of a digit string (most significant first). -/
def natFromDigits (s : Chars) : ℕ := s.foldl (fun a c => 10 * a + (c.toNat - 48)) 0

/-- The digit character for a value below ten. -/
def digitChar (d : ℕ) : Char :=
  if d = 0 then '0' else if d = 1 then '1' else if d = 2 then '2' else if d = 3 then '3'
  else if d = 4 then '4' else if d = 5 then '5' else if d = 6 then '6' else if d = 7 then '7'
  else if d = 8 then '8' else '9'

/-- Decimal digits of a natural number, most significant first (fuel-based
so that it evaluates in the kernel; the fuel `n + 1` always suffices). -/
def toDigitsAux : ℕ → ℕ → Chars
  | 0, _ => []
  | fuel + 1, n =>
    if n < 10 then [digitChar n]
    else toDigitsAux fuel (n / 10) ++ [digitChar (n % 10)]

def toDigits (n : ℕ) : Chars := toDigitsAux (n + 1) n

/-- Left-pad a digit string with zeros to length `k`. -/
def padZeros (k : ℕ) (ds : Chars) : Chars := List.replicate (k - ds.length) '0' ++ ds

/-- Strip an optional leading `'$'`. -/
def stripDollar (s : Chars) : Chars :=
  match s with
  | c :: t => if c = '$' then t else s
  | [] => []

/-- Sign of an exponent suffix: `-`/`+` consume one character, anything
else leaves the text unchanged with a positive sign. -/
def expSplit (t : Chars) : ℤ × Chars :=
  match t with
  | d :: u => if d = '-' then (-1, u) else if d = '+' then (1, u) else (1, t)
  | [] => (1, t)

/-- Exponent suffix of Python `float()`: empty input accepts the mantissa,
`e`/`E` with an optional sign and at least one digit scales it, anything
else raises. -/
def expPart (sgn m : ℚ) : Chars → Except Unit ℚ
  | [] => .ok (sgn * m)
  | c :: t =>
    if c = 'e' ∨ c = 'E' then
      if ((expSplit t).2.takeWhile isDig).isEmpty
          ∨ (expSplit t).2.drop ((expSplit t).2.takeWhile isDig).length ≠ [] then
        .error ()
      else
        .ok (sgn * m * (10 : ℚ)
          ^ ((expSplit t).1 * (natFromDigits ((expSplit t).2.takeWhile isDig) : ℤ)))
    else .error ()

/-- Mantissa of Python `float()`: digits with an optional fractional part
(at least one digit in total), then the exponent suffix. -/
def pyFloatMant (sgn : ℚ) (s1 : Chars) : Except Unit ℚ :=
  let ip := s1.takeWhile isDig
  match s1.drop ip.length with
  | c :: r2 =>
    if c = '.' then
      let fp := r2.takeWhile isDig
      if ip.isEmpty && fp.isEmpty then .error ()
      else expPart sgn ((natFromDigits ip : ℚ) + (natFromDigits fp : ℚ) / 10 ^ fp.length)
             (r2.drop fp.length)
    else if ip.isEmpty then .error ()
    else expPart sgn (natFromDigits ip) (c :: r2)
  | [] => if ip.isEmpty then .error () else expPart sgn (natFromDigits ip) []

/-- Model of Python `float(s)` on its decimal fragment: optional sign,
decimal mantissa, optional exponent. The `inf`/`nan` words and underscore
digit separators of CPython are not modelled (no claim depends on them);
anything else raises `ValueError`, modelled as `.error ()`. -/
def pyFloat (s : Chars) : Except Unit ℚ :=
  match s with
  | c :: t =>
    if c = '-' then pyFloatMant (-1) t
    else if c = '+' then pyFloatMant 1 t
    else pyFloatMant 1 s
  | [] => pyFloatMant 1 []

/-- Model of the regex step of `_clean_dollar` (lines 24-25):
`re.match(r"^\$?([\d,]+\.?\d*)", s.replace("$", "", 1) if s.startswith("$")
else s)`, returning the text of group 1 on a match. The `replace` removes
the leading dollar (modelled by the first `stripDollar`), the `\$?` can
consume a second one; `[\d,]+` then takes a maximal nonempty run of digits
and commas, `\.?\d*` an optional dot with a maximal digit run. -/
def matchToken (s : Chars) : Option Chars :=
  let s2 := stripDollar (stripDollar s)
  let ip := s2.takeWhile (fun c => isDig c || decide (c = ','))
  if ip.isEmpty then none
  else
    match s2.drop ip.length with
    | c :: r2 => if c = '.' then some (ip ++ '.' :: r2.takeWhile isDig) else some ip
    | [] => some ip

/-- Smallest `k ≤ fuel + start` with `(q * 10 ^ k).den = 1`, searched from
`start` (fuel-based, kernel-evaluable). -/
def minKAux (q : ℚ) : ℕ → ℕ → ℕ
  | 0, k => k
  | fuel + 1, k => if (q * 10 ^ k).den = 1 then k else minKAux q fuel (k + 1)

/-- Number of fractional digits in the shortest decimal rendering of `q`
(for `q` with a decimal denominator the fuel `q.den + 1` always suffices). -/
def minK (q : ℚ) : ℕ := minKAux q (q.den + 1) 0

def dropTrailingZeros (ds : Chars) : Chars :=
  (ds.reverse.dropWhile (fun c => decide (c = '0'))).reverse

/-- Scientific-notation rendering `d.ddde±XX` of the digit string `D` with
`k` fractional digits, as CPython's float repr produces for values below
`1e-4` or at least `1e16`. -/
def sciChars (D : Chars) (k : ℕ) : Chars :=
  (match D with
   | [] => ['0']
   | d :: rest =>
     match dropTrailingZeros rest with
     | [] => [d]
     | r2 => d :: '.' :: r2) ++
  'e' :: (if (D.length : ℤ) - 1 - k < 0 then '-' else '+')
    :: padZeros 2 (toDigits ((D.length : ℤ) - 1 - k).natAbs)

/-- Model of Python `str()` on a nonnegative float holding the exact decimal
`q`: plain decimal notation `intpart.fracpart` with the shortest fractional
part (`".0"` for integers), switching to scientific notation exactly when
`0 < q < 1e-4` or `q ≥ 1e16` (CPython's repr threshold). -/
def pyStrPos (q : ℚ) : Chars :=
  if q ≠ 0 ∧ (q < 1 / 10 ^ 4 ∨ 10 ^ 16 ≤ q) then
    sciChars (toDigits ((q * 10 ^ minK q).num.natAbs)) (minK q)
  else if minK q = 0 then toDigits ((q * 10 ^ minK q).num.natAbs) ++ ['.', '0']
  else toDigits ((q * 10 ^ minK q).num.natAbs / 10 ^ minK q) ++
    '.' :: padZeros (minK q) (toDigits ((q * 10 ^ minK q).num.natAbs % 10 ^ minK q))

/-- Model of Python `str()` on a float holding the exact decimal `q`. -/
def pyStr (q : ℚ) : Chars := if q < 0 then '-' :: pyStrPos (-q) else pyStrPos q

/-- A value handed to `_clean_dollar`: a missing cell (`pd.isna`), a numeric
cell, or a text cell. -/
inductive PyVal
  | null
  | num (q : ℚ)
  | str (s : Chars)

def tbdLit : Chars := "TBD".toList

def monthLit : Chars := "$200/MONTH".toList

/-- Body of `_clean_dollar` on the string form of its argument
(lines 21-32): strip, compare the uppercased text against the sentinel
tuple, try the leading-number regex (whose `float` call is NOT guarded and
propagates `ValueError`), then fall back to `float` on the comma/dollar-free
text with `ValueError` caught and turned into `None`. -/
def cleanStr (s0 : Chars) : Except Unit (Option ℚ) :=
  let s := pyStrip s0
  if pyUpper s = tbdLit ∨ s = [] ∨ pyUpper s = monthLit then .ok none
  else
    match matchToken s with
    | some tok =>
      match pyFloat (tok.filter (fun c => !(decide (c = ',')))) with
      | .ok q => .ok (some q)
      | .error u => .error u
    | none =>
      match pyFloat (s.filter (fun c => !(decide (c = ',') || decide (c = '$')))) with
      | .ok q => .ok (some q)
      | .error _ => .ok none

/-- Translation of `_clean_dollar` (lines 17-32). A numeric cell is first
rendered by `str(val)` (modelled by `pyStr`). -/
def _clean_dollar : PyVal → Except Unit (Option ℚ)
  | .null => .ok none
  | .num q => cleanStr (pyStr q)
  | .str s => cleanStr s

/-- C3 (code bug): on the one-character string `","` the regex
`^\$?([\d,]+\.?\d*)` matches with group `","`; stripping the comma leaves
`""`, and the unguarded `float("")` on line 27 raises `ValueError`. -/
theorem clean_dollar_raises_on_comma :
    _clean_dollar (.str [',']) = .error () := rfl

-- ── Digit-string lemmas ────────────────────────────────────────────────────

theorem isDig_toNat {c : Char} (h : isDig c = true) : 48 ≤ c.toNat ∧ c.toNat ≤ 57 := by
  simpa [isDig] using h

theorem isDig_ne {c : Char} (h : isDig c = true) (ch : Char)
    (hch : ch.toNat < 48 ∨ 57 < ch.toNat) : c ≠ ch := by
  intro hc
  subst hc
  have := isDig_toNat h
  omega

theorem digitChar_toNat {d : ℕ} (h : d < 10) : (digitChar d).toNat = 48 + d := by
  interval_cases d <;> rfl

theorem isDig_digitChar (d : ℕ) : isDig (digitChar d) = true := by
  unfold digitChar
  split_ifs <;> decide

theorem natFromDigits_go (b : Chars) :
    ∀ x : ℕ, b.foldl (fun a c => 10 * a + (c.toNat - 48)) x
      = x * 10 ^ b.length + natFromDigits b := by
  induction b with
  | nil => intro x; simp [natFromDigits]
  | cons c t ih =>
    intro x
    show t.foldl _ (10 * x + (c.toNat - 48)) = _
    rw [ih (10 * x + (c.toNat - 48))]
    have h2 : natFromDigits (c :: t) = (10 * 0 + (c.toNat - 48)) * 10 ^ t.length
        + natFromDigits t := by
      show t.foldl _ (10 * 0 + (c.toNat - 48)) = _
      rw [ih (10 * 0 + (c.toNat - 48))]
    rw [h2, List.length_cons]
    ring

theorem natFromDigits_append (a b : Chars) :
    natFromDigits (a ++ b) = natFromDigits a * 10 ^ b.length + natFromDigits b := by
  unfold natFromDigits
  rw [List.foldl_append]
  exact natFromDigits_go b _

theorem natFromDigits_singleton (c : Char) : natFromDigits [c] = c.toNat - 48 := by
  simp [natFromDigits]

theorem toDigitsAux_spec : ∀ fuel n, n < fuel →
    natFromDigits (toDigitsAux fuel n) = n ∧
    (∀ c ∈ toDigitsAux fuel n, isDig c = true) ∧ toDigitsAux fuel n ≠ [] := by
  intro fuel
  induction fuel with
  | zero => intro n h; exact absurd h (Nat.not_lt_zero n)
  | succ f ih =>
    intro n hn
    by_cases h10 : n < 10
    · unfold toDigitsAux
      rw [if_pos h10]
      refine ⟨?_, ?_, by simp⟩
      · rw [natFromDigits_singleton, digitChar_toNat h10]
        omega
      · intro c hc
        rw [List.mem_singleton.mp hc]
        exact isDig_digitChar n
    · have hrec : n / 10 < f := by
        have := Nat.div_lt_self (by omega : 0 < n) (by norm_num : 1 < 10)
        omega
      obtain ⟨ihv, ihd, _⟩ := ih (n / 10) hrec
      unfold toDigitsAux
      rw [if_neg h10]
      refine ⟨?_, ?_, by simp⟩
      · rw [natFromDigits_append, ihv, natFromDigits_singleton,
            digitChar_toNat (Nat.mod_lt n (by norm_num)), List.length_singleton]
        omega
      · intro c hc
        rcases List.mem_append.mp hc with h | h
        · exact ihd c h
        · rw [List.mem_singleton.mp h]
          exact isDig_digitChar _

theorem natFromDigits_toDigits (n : ℕ) : natFromDigits (toDigits n) = n :=
  (toDigitsAux_spec (n + 1) n (by omega)).1

theorem toDigits_all_dig (n : ℕ) : ∀ c ∈ toDigits n, isDig c = true :=
  (toDigitsAux_spec (n + 1) n (by omega)).2.1

theorem toDigits_ne_nil (n : ℕ) : toDigits n ≠ [] :=
  (toDigitsAux_spec (n + 1) n (by omega)).2.2

theorem toDigitsAux_length : ∀ fuel n k, n < fuel → 1 ≤ k → n < 10 ^ k →
    (toDigitsAux fuel n).length ≤ k := by
  intro fuel
  induction fuel with
  | zero => intro n k h; exact absurd h (Nat.not_lt_zero n)
  | succ f ih =>
    intro n k hn hk hnk
    by_cases h10 : n < 10
    · unfold toDigitsAux
      rw [if_pos h10]
      simpa using hk
    · have hk2 : 2 ≤ k := by
        rcases Nat.lt_or_ge k 2 with h | h
        · interval_cases k
          norm_num at hnk
          omega
        · exact h
      have hrec : n / 10 < f := by
        have := Nat.div_lt_self (by omega : 0 < n) (by norm_num : 1 < 10)
        omega
      have hdiv : n / 10 < 10 ^ (k - 1) := by
        rw [Nat.div_lt_iff_lt_mul (by norm_num : 0 < 10)]
        calc n < 10 ^ k := hnk
          _ = 10 ^ (k - 1) * 10 := by
            rw [← pow_succ]
            congr 1
            omega
      have := ih (n / 10) (k - 1) hrec (by omega) hdiv
      unfold toDigitsAux
      rw [if_neg h10, List.length_append, List.length_singleton]
      omega

theorem toDigits_length_le (n k : ℕ) (hk : 1 ≤ k) (h : n < 10 ^ k) :
    (toDigits n).length ≤ k :=
  toDigitsAux_length (n + 1) n k (by omega) hk h

theorem natFromDigits_replicate_zero (j : ℕ) :
    natFromDigits (List.replicate j '0') = 0 := by
  induction j with
  | zero => rfl
  | succ m ih =>
    rw [List.replicate_succ]
    show List.foldl _ (10 * 0 + ('0'.toNat - 48)) (List.replicate m '0') = 0
    simpa [natFromDigits] using ih

theorem natFromDigits_padZeros (k : ℕ) (ds : Chars) :
    natFromDigits (padZeros k ds) = natFromDigits ds := by
  unfold padZeros
  rw [natFromDigits_append, natFromDigits_replicate_zero]
  simp

theorem padZeros_length (k : ℕ) (ds : Chars) (h : ds.length ≤ k) :
    (padZeros k ds).length = k := by
  unfold padZeros
  rw [List.length_append, List.length_replicate]
  omega

theorem padZeros_all_dig (k : ℕ) (ds : Chars) (h : ∀ c ∈ ds, isDig c = true) :
    ∀ c ∈ padZeros k ds, isDig c = true := by
  intro c hc
  rcases List.mem_append.mp hc with h2 | h2
  · rw [(List.mem_replicate.mp h2).2]
    decide
  · exact h c h2

-- ── Parsing of rendered decimal strings ────────────────────────────────────

theorem dropWhile_eq_self_of_all (p : Char → Bool) (s : Chars)
    (h : ∀ c ∈ s, p c = false) : s.dropWhile p = s := by
  cases s with
  | nil => rfl
  | cons c t =>
    rw [List.dropWhile_cons, h c (List.mem_cons_self c t)]
    simp

theorem pyStrip_eq_self (s : Chars) (h : ∀ c ∈ s, isSpaceCh c = false) :
    pyStrip s = s := by
  unfold pyStrip
  rw [dropWhile_eq_self_of_all _ _ h,
      dropWhile_eq_self_of_all _ _ (fun c hc => h c (List.mem_reverse.mp hc)),
      List.reverse_reverse]

theorem takeWhile_all (p : Char → Bool) (s : Chars) (h : ∀ c ∈ s, p c = true) :
    s.takeWhile p = s := by
  induction s with
  | nil => rfl
  | cons c t ih =>
    rw [List.takeWhile_cons, h c (List.mem_cons_self c t)]
    simp only [ite_true]
    rw [ih (fun x hx => h x (List.mem_cons_of_mem c hx))]

theorem takeWhile_append_stop (p : Char → Bool) (A : Chars) (x : Char) (R : Chars)
    (hA : ∀ c ∈ A, p c = true) (hx : p x = false) :
    (A ++ x :: R).takeWhile p = A := by
  induction A with
  | nil => simp [List.takeWhile_cons, hx]
  | cons c t ih =>
    rw [List.cons_append, List.takeWhile_cons, hA c (List.mem_cons_self c t)]
    simp only [ite_true]
    rw [ih (fun a ha => hA a (List.mem_cons_of_mem c ha))]

/-- A digit is unaffected by `Char.toUpper`. -/
theorem toUpper_isDig {c : Char} (h : isDig c = true) : c.toUpper = c := by
  have hb := isDig_toNat h
  unfold Char.toUpper
  rw [if_neg]
  omega

/-- A string whose head is a digit, `'-'` or `'+'` is none of the sentinel
strings `"TBD"`, `""`, `"$200/MONTH"` after uppercasing. -/
theorem not_reserved (c : Char) (rest : Chars)
    (hc : isDig c = true ∨ c = '-' ∨ c = '+') :
    ¬(pyUpper (c :: rest) = tbdLit ∨ c :: rest = [] ∨ pyUpper (c :: rest) = monthLit) := by
  have hup : c.toUpper = c := by
    rcases hc with h | h | h
    · exact toUpper_isDig h
    · rw [h]; rfl
    · rw [h]; rfl
  have hcn : c.toNat ≠ 84 ∧ c.toNat ≠ 36 := by
    rcases hc with h | h | h
    · have := isDig_toNat h; omega
    · rw [h]; exact ⟨by decide, by decide⟩
    · rw [h]; exact ⟨by decide, by decide⟩
  intro h
  rcases h with h | h | h
  · have hhead : Char.toUpper c = 'T' := by
      have := congrArg (fun l => List.headD l ' ') h
      simpa [pyUpper] using this
    rw [hup] at hhead
    rw [hhead] at hcn
    exact hcn.1 rfl
  · exact List.cons_ne_nil c rest h
  · have hhead : Char.toUpper c = '$' := by
      have := congrArg (fun l => List.headD l ' ') h
      simpa [pyUpper] using this
    rw [hup] at hhead
    rw [hhead] at hcn
    exact hcn.2 rfl

theorem isSpaceCh_eq_false_of_isDig {c : Char} (h : isDig c = true) :
    isSpaceCh c = false := by
  have h1 : c ≠ ' ' := isDig_ne h ' ' (by decide)
  have h2 : c ≠ '\t' := isDig_ne h '\t' (by decide)
  have h3 : c ≠ '\n' := isDig_ne h '\n' (by decide)
  have h4 : c ≠ '\r' := isDig_ne h '\r' (by decide)
  have h5 : c ≠ '\x0b' := isDig_ne h '\x0b' (by decide)
  have h6 : c ≠ '\x0c' := isDig_ne h '\x0c' (by decide)
  simp [isSpaceCh, h1, h2, h3, h4, h5, h6]

theorem matchToken_digits (I Fr : Chars) (hI : I ≠ [])
    (hIdig : ∀ c ∈ I, isDig c = true) (hFdig : ∀ c ∈ Fr, isDig c = true) :
    matchToken (I ++ '.' :: Fr) = some (I ++ '.' :: Fr) := by
  obtain ⟨c0, I2, rfl⟩ : ∃ c0 I2, I = c0 :: I2 := by
    cases I with
    | nil => exact absurd rfl hI
    | cons a b => exact ⟨a, b, rfl⟩
  have hc0 : isDig c0 = true := hIdig c0 (List.mem_cons_self _ _)
  have hc0d : c0 ≠ '$' := isDig_ne hc0 '$' (by decide)
  have hIp : ∀ c ∈ c0 :: I2, (isDig c || decide (c = ',')) = true := by
    intro c hc
    rw [hIdig c hc]
    rfl
  unfold matchToken stripDollar
  rw [List.cons_append]
  simp only [if_neg hc0d]
  rw [← List.cons_append,
      takeWhile_append_stop _ (c0 :: I2) '.' Fr hIp (by decide), List.drop_left]
  have hne : (c0 :: I2).isEmpty = false := rfl
  rw [hne]
  simp only [Bool.false_eq_true, if_false, if_true]
  rw [takeWhile_all isDig Fr hFdig]

theorem filter_comma_digits (I Fr : Chars)
    (hIdig : ∀ c ∈ I, isDig c = true) (hFdig : ∀ c ∈ Fr, isDig c = true) :
    (I ++ '.' :: Fr).filter (fun c => !(decide (c = ','))) = I ++ '.' :: Fr := by
  apply List.filter_eq_self.mpr
  intro a ha
  have hane : a ≠ ',' := by
    rcases List.mem_append.mp ha with h | h
    · exact isDig_ne (hIdig a h) ',' (by decide)
    · rcases List.mem_cons.mp h with h | h
      · rw [h]; decide
      · exact isDig_ne (hFdig a h) ',' (by decide)
  simp [hane]

theorem pyFloatMant_digits (sgn : ℚ) (I Fr : Chars) (hI : I ≠ [])
    (hIdig : ∀ c ∈ I, isDig c = true) (hFdig : ∀ c ∈ Fr, isDig c = true) :
    pyFloatMant sgn (I ++ '.' :: Fr)
      = .ok (sgn * ((natFromDigits I : ℚ) + (natFromDigits Fr : ℚ) / 10 ^ Fr.length)) := by
  unfold pyFloatMant
  dsimp only
  rw [takeWhile_append_stop isDig I '.' Fr hIdig (by decide), List.drop_left]
  dsimp only
  have hne : I.isEmpty = false := by
    cases I with
    | nil => exact absurd rfl hI
    | cons a b => rfl
  simp only [if_true]
  rw [takeWhile_all isDig Fr hFdig, hne]
  simp only [Bool.false_and, Bool.false_eq_true, if_false]
  rw [List.drop_length]
  rfl

theorem cleanStr_digits_cons (c0 : Char) (I2 Fr : Chars) (hc0 : isDig c0 = true)
    (hI2 : ∀ c ∈ I2, isDig c = true) (hFdig : ∀ c ∈ Fr, isDig c = true) :
    cleanStr (c0 :: (I2 ++ '.' :: Fr))
      = .ok (some ((natFromDigits (c0 :: I2) : ℚ)
          + (natFromDigits Fr : ℚ) / 10 ^ Fr.length)) := by
  have hIdig : ∀ c ∈ c0 :: I2, isDig c = true := by
    intro c hc
    rcases List.mem_cons.mp hc with h | h
    · rw [h]; exact hc0
    · exact hI2 c h
  have hstrip : pyStrip (c0 :: (I2 ++ '.' :: Fr)) = c0 :: (I2 ++ '.' :: Fr) := by
    apply pyStrip_eq_self
    intro c hc
    rcases List.mem_cons.mp hc with h | h
    · rw [h]; exact isSpaceCh_eq_false_of_isDig hc0
    · rcases List.mem_append.mp h with h2 | h2
      · exact isSpaceCh_eq_false_of_isDig (hI2 c h2)
      · rcases List.mem_cons.mp h2 with h3 | h3
        · rw [h3]; decide
        · exact isSpaceCh_eq_false_of_isDig (hFdig c h3)
  have hmt : matchToken (c0 :: (I2 ++ '.' :: Fr)) = some (c0 :: (I2 ++ '.' :: Fr)) := by
    rw [← List.cons_append]
    exact matchToken_digits (c0 :: I2) Fr (by simp) hIdig hFdig
  have hfil : (c0 :: (I2 ++ '.' :: Fr)).filter (fun c => !(decide (c = ',')))
      = c0 :: (I2 ++ '.' :: Fr) := by
    rw [← List.cons_append]
    exact filter_comma_digits (c0 :: I2) Fr hIdig hFdig
  have hpf : pyFloat (c0 :: (I2 ++ '.' :: Fr))
      = .ok (1 * ((natFromDigits (c0 :: I2) : ℚ)
          + (natFromDigits Fr : ℚ) / 10 ^ Fr.length)) := by
    unfold pyFloat
    dsimp only
    rw [if_neg (isDig_ne hc0 '-' (by decide)), if_neg (isDig_ne hc0 '+' (by decide)),
        ← List.cons_append]
    exact pyFloatMant_digits 1 (c0 :: I2) Fr (by simp) hIdig hFdig
  unfold cleanStr
  dsimp only
  rw [hstrip, if_neg (not_reserved c0 _ (Or.inl hc0)), hmt]
  dsimp only
  rw [hfil, hpf, one_mul]

theorem cleanStr_digits (I Fr : Chars) (hI : I ≠ [])
    (hIdig : ∀ c ∈ I, isDig c = true) (hFdig : ∀ c ∈ Fr, isDig c = true) :
    cleanStr (I ++ '.' :: Fr)
      = .ok (some ((natFromDigits I : ℚ) + (natFromDigits Fr : ℚ) / 10 ^ Fr.length)) := by
  obtain ⟨c0, I2, rfl⟩ : ∃ c0 I2, I = c0 :: I2 := by
    cases I with
    | nil => exact absurd rfl hI
    | cons a b => exact ⟨a, b, rfl⟩
  rw [List.cons_append]
  exact cleanStr_digits_cons c0 I2 Fr (hIdig c0 (List.mem_cons_self _ _))
    (fun c hc => hIdig c (List.mem_cons_of_mem c0 hc)) hFdig

theorem cleanStr_neg_digits (I Fr : Chars) (hI : I ≠ [])
    (hIdig : ∀ c ∈ I, isDig c = true) (hFdig : ∀ c ∈ Fr, isDig c = true) :
    cleanStr ('-' :: (I ++ '.' :: Fr))
      = .ok (some (-((natFromDigits I : ℚ)
          + (natFromDigits Fr : ℚ) / 10 ^ Fr.length))) := by
  have hstrip : pyStrip ('-' :: (I ++ '.' :: Fr)) = '-' :: (I ++ '.' :: Fr) := by
    apply pyStrip_eq_self
    intro c hc
    rcases List.mem_cons.mp hc with h | h
    · rw [h]; decide
    · rcases List.mem_append.mp h with h2 | h2
      · exact isSpaceCh_eq_false_of_isDig (hIdig c h2)
      · rcases List.mem_cons.mp h2 with h3 | h3
        · rw [h3]; decide
        · exact isSpaceCh_eq_false_of_isDig (hFdig c h3)
  have hsd : stripDollar ('-' :: (I ++ '.' :: Fr)) = '-' :: (I ++ '.' :: Fr) := by
    show (if ('-' : Char) = '$' then I ++ '.' :: Fr else '-' :: (I ++ '.' :: Fr)) = _
    rw [if_neg (by decide : ¬('-' : Char) = '$')]
  have hmt : matchToken ('-' :: (I ++ '.' :: Fr)) = none := by
    unfold matchToken
    dsimp only
    rw [hsd, hsd, List.takeWhile_cons_of_neg (by decide)]
    rfl
  have hfil : ('-' :: (I ++ '.' :: Fr)).filter
      (fun c => !(decide (c = ',') || decide (c = '$'))) = '-' :: (I ++ '.' :: Fr) := by
    apply List.filter_eq_self.mpr
    intro a ha
    have h1 : a ≠ ',' ∧ a ≠ '$' := by
      rcases List.mem_cons.mp ha with h | h
      · rw [h]; exact ⟨by decide, by decide⟩
      · rcases List.mem_append.mp h with h2 | h2
        · exact ⟨isDig_ne (hIdig a h2) ',' (by decide),
                 isDig_ne (hIdig a h2) '$' (by decide)⟩
        · rcases List.mem_cons.mp h2 with h3 | h3
          · rw [h3]; exact ⟨by decide, by decide⟩
          · exact ⟨isDig_ne (hFdig a h3) ',' (by decide),
                   isDig_ne (hFdig a h3) '$' (by decide)⟩
    simp [h1.1, h1.2]
  have hpf : pyFloat ('-' :: (I ++ '.' :: Fr))
      = .ok ((-1) * ((natFromDigits I : ℚ)
          + (natFromDigits Fr : ℚ) / 10 ^ Fr.length)) := by
    unfold pyFloat
    dsimp only
    rw [if_pos rfl]
    exact pyFloatMant_digits (-1) I Fr hI hIdig hFdig
  unfold cleanStr
  dsimp only
  rw [hstrip, if_neg (not_reserved '-' _ (Or.inr (Or.inl rfl))), hmt]
  dsimp only
  rw [hfil, hpf, neg_one_mul]

-- ── Every parsed value is an exact decimal ─────────────────────────────────

/-- A rational with a power-of-ten denominator (the exact value of a parsed
decimal literal). -/
def IsDec (q : ℚ) : Prop := ∃ z : ℤ, ∃ k : ℕ, q = z / 10 ^ k

theorem isDec_mul_zpow (x : ℚ) (e : ℤ) (h : IsDec x) : IsDec (x * (10:ℚ) ^ e) := by
  obtain ⟨z, k, rfl⟩ := h
  rcases e with n | n
  · refine ⟨z * 10 ^ n, k, ?_⟩
    have hzn : ((10:ℚ)) ^ (Int.ofNat n) = 10 ^ n := zpow_natCast 10 n
    rw [hzn]
    push_cast
    ring
  · refine ⟨z, k + (n + 1), ?_⟩
    rw [zpow_negSucc, ← div_eq_mul_inv, div_div, ← pow_add]

theorem expPart_isDec (sgn m : ℚ) (r : Chars) (q : ℚ)
    (hm : IsDec (sgn * m)) (h : expPart sgn m r = .ok q) : IsDec q := by
  cases r with
  | nil =>
    have hq : sgn * m = q := by simpa [expPart] using h
    exact hq ▸ hm
  | cons c t =>
    simp only [expPart] at h
    split at h
    case isTrue =>
      split at h
      case isTrue => exact absurd h (by simp)
      case isFalse =>
        have hq := Except.ok.inj h
        exact hq ▸ isDec_mul_zpow (sgn * m) _ hm
    case isFalse => exact absurd h (by simp)

theorem mant_isDec (sgn : ℚ) (hs : sgn = 1 ∨ sgn = -1) (a b f : ℕ) :
    IsDec (sgn * ((a : ℚ) + (b : ℚ) / 10 ^ f)) := by
  rcases hs with h | h <;> subst h
  · refine ⟨(a * 10 ^ f + b : ℤ), f, ?_⟩
    push_cast
    rw [one_mul]
    field_simp
  · refine ⟨-(a * 10 ^ f + b : ℤ), f, ?_⟩
    push_cast
    field_simp
    try ring

theorem mant_isDec_int (sgn : ℚ) (hs : sgn = 1 ∨ sgn = -1) (a : ℕ) :
    IsDec (sgn * (a : ℚ)) := by
  rcases hs with h | h <;> subst h
  · exact ⟨a, 0, by simp⟩
  · refine ⟨-a, 0, ?_⟩
    push_cast
    simp

theorem pyFloatMant_isDec (sgn : ℚ) (hs : sgn = 1 ∨ sgn = -1) (s : Chars) (q : ℚ)
    (h : pyFloatMant sgn s = .ok q) : IsDec q := by
  unfold pyFloatMant at h
  dsimp only at h
  split at h
  · split at h
    · split at h
      · exact absurd h (by simp)
      · exact expPart_isDec _ _ _ q (mant_isDec sgn hs _ _ _) h
    · split at h
      · exact absurd h (by simp)
      · exact expPart_isDec _ _ _ q (mant_isDec_int sgn hs _) h
  · split at h
    · exact absurd h (by simp)
    · exact expPart_isDec _ _ _ q (mant_isDec_int sgn hs _) h

theorem pyFloat_isDec (s : Chars) (q : ℚ) (h : pyFloat s = .ok q) : IsDec q := by
  unfold pyFloat at h
  split at h
  · split at h
    · exact pyFloatMant_isDec _ (Or.inr rfl) _ q h
    · split at h
      · exact pyFloatMant_isDec _ (Or.inl rfl) _ q h
      · exact pyFloatMant_isDec _ (Or.inl rfl) _ q h
  · exact pyFloatMant_isDec _ (Or.inl rfl) _ q h

theorem cleanStr_isDec (s : Chars) (q : ℚ) (h : cleanStr s = .ok (some q)) :
    IsDec q := by
  unfold cleanStr at h
  dsimp only at h
  split at h
  · simp at h
  · split at h
    · split at h
      · rename_i q0 heq2
        have hq : q0 = q := by simpa using h
        exact hq ▸ pyFloat_isDec _ q0 heq2
      · exact absurd h (by simp)
    · split at h
      · rename_i q0 heq2
        have hq : q0 = q := by simpa using h
        exact hq ▸ pyFloat_isDec _ q0 heq2
      · simp at h

theorem clean_dollar_isDec (x : PyVal) (q : ℚ)
    (h : _clean_dollar x = .ok (some q)) : IsDec q := by
  cases x with
  | null => simp [_clean_dollar] at h
  | num p => exact cleanStr_isDec _ q h
  | str s => exact cleanStr_isDec s q h

-- ── Denominator bound and the minimal-fraction search ──────────────────────

theorem dvd_ten_pow_self : ∀ d K : ℕ, d ∣ 10 ^ K → d ∣ 10 ^ d := by
  intro d
  induction d using Nat.strong_induction_on with
  | _ d ih =>
    intro K hdvd
    match d, ih, hdvd with
    | 0, _, hdvd =>
      rw [Nat.zero_dvd] at hdvd
      exact absurd hdvd (Nat.pos_iff_ne_zero.mp (Nat.pos_pow_of_pos K (by norm_num)))
    | 1, _, _ => exact one_dvd _
    | (e + 2), ih, hdvd =>
      obtain ⟨p, hp, hpd⟩ := Nat.exists_prime_and_dvd (by omega : e + 2 ≠ 1)
      have hp10 : p ∣ 10 := hp.dvd_of_dvd_pow (hpd.trans hdvd)
      obtain ⟨c, hc⟩ := hpd
      have hc0 : c ≠ 0 := by
        intro h0
        rw [h0, Nat.mul_zero] at hc
        omega
      have hclt : c < e + 2 := by
        have hp2 : 2 ≤ p := hp.two_le
        have : 2 * c ≤ p * c := Nat.mul_le_mul_right c hp2
        omega
      have hcd : c ∣ e + 2 := Dvd.intro_left p hc.symm
      have hcdvd : c ∣ 10 ^ K := hcd.trans hdvd
      have ihc : c ∣ 10 ^ c := ih c hclt K hcdvd
      have h1 : e + 2 ∣ 10 * 10 ^ c := by
        rw [hc]
        exact mul_dvd_mul hp10 ihc
      have h2 : (10 : ℕ) * 10 ^ c = 10 ^ (c + 1) := (pow_succ 10 c).symm ▸ by ring
      have h3 : (10 : ℕ) ^ (c + 1) ∣ 10 ^ (e + 2) := pow_dvd_pow 10 (by omega)
      rw [h2] at h1
      exact h1.trans h3

theorem minKAux_spec (q : ℚ) : ∀ fuel start,
    (∃ j, start ≤ j ∧ j < start + fuel ∧ (q * 10 ^ j).den = 1) →
    (q * 10 ^ minKAux q fuel start).den = 1 := by
  intro fuel
  induction fuel with
  | zero =>
    intro start ⟨j, h1, h2, _⟩
    omega
  | succ f ih =>
    intro start ⟨j, h1, h2, hden⟩
    have heq : minKAux q (f + 1) start
        = if (q * 10 ^ start).den = 1 then start else minKAux q f (start + 1) := rfl
    rw [heq]
    by_cases h : (q * 10 ^ start).den = 1
    · rw [if_pos h]
      exact h
    · rw [if_neg h]
      apply ih (start + 1)
      refine ⟨j, ?_, by omega, hden⟩
      rcases Nat.eq_or_lt_of_le h1 with h3 | h3
      · exact absurd (h3 ▸ hden) h
      · omega

theorem den_one_of_isDec (q : ℚ) (h : IsDec q) : (q * 10 ^ q.den).den = 1 := by
  obtain ⟨z, k, hq⟩ := h
  have h1 : q.den ∣ 10 ^ k := by
    have hdi : q = Rat.divInt z (10 ^ k) := by
      rw [Rat.divInt_eq_div, hq]
      push_cast
      ring
    have := Rat.den_dvd z (10 ^ k)
    rw [← hdi] at this
    have h2 : ((q.den : ℤ)) ∣ ((10 ^ k : ℕ) : ℤ) := by
      push_cast
      exact this
    exact_mod_cast h2
  have h2 : q.den ∣ 10 ^ q.den := dvd_ten_pow_self q.den k h1
  obtain ⟨c, hc⟩ := h2
  have hden0 : ((q.den : ℚ)) ≠ 0 := by
    exact_mod_cast q.den_nz
  have hqd : q * (q.den : ℚ) = (q.num : ℚ) := by
    have h := Rat.num_div_den q
    rw [div_eq_iff hden0] at h
    exact h.symm
  have hval : q * 10 ^ q.den = ((q.num * c : ℤ) : ℚ) := by
    have h10 : ((10 : ℚ)) ^ q.den = ((10 ^ q.den : ℕ) : ℚ) := by push_cast; ring
    rw [h10, hc]
    push_cast
    calc q * ((q.den : ℚ) * (c : ℚ)) = q * (q.den : ℚ) * (c : ℚ) := by ring
      _ = (q.num : ℚ) * (c : ℚ) := by rw [hqd]
  rw [hval]
  exact Rat.den_intCast _

theorem minK_den_one (q : ℚ) (h : IsDec q) : (q * 10 ^ minK q).den = 1 := by
  apply minKAux_spec
  exact ⟨q.den, by omega, by omega, den_one_of_isDec q h⟩

-- ── Structure of the plain decimal rendering ───────────────────────────────

theorem pyStrPos_decomp (p : ℚ) (hdec : IsDec p) (h0 : 0 ≤ p)
    (hrange : p = 0 ∨ (1 / 10 ^ 4 ≤ p ∧ p < 10 ^ 16)) :
    ∃ I Fr, pyStrPos p = I ++ '.' :: Fr ∧ I ≠ [] ∧
      (∀ c ∈ I, isDig c = true) ∧ (∀ c ∈ Fr, isDig c = true) ∧ Fr ≠ [] ∧
      (natFromDigits I : ℚ) + (natFromDigits Fr : ℚ) / 10 ^ Fr.length = p := by
  have hden := minK_den_one p hdec
  have hnum0 : 0 ≤ (p * 10 ^ minK p).num :=
    Rat.num_nonneg.mpr (mul_nonneg h0 (by positivity))
  have hmval : (((p * 10 ^ minK p).num.natAbs : ℕ) : ℚ) = p * 10 ^ minK p := by
    have h1 : (((p * 10 ^ minK p).num : ℤ) : ℚ) = p * 10 ^ minK p :=
      (Rat.den_eq_one_iff _).mp hden
    have h2 : ((((p * 10 ^ minK p).num.natAbs : ℤ)) : ℚ) = (((p * 10 ^ minK p).num : ℤ) : ℚ) :=
      congrArg (fun z : ℤ => (z : ℚ)) (Int.natAbs_of_nonneg hnum0)
    have h3 : (((p * 10 ^ minK p).num.natAbs : ℕ) : ℚ)
        = ((((p * 10 ^ minK p).num.natAbs : ℤ)) : ℚ) :=
      (Int.cast_natCast _).symm
    rw [h3, h2, h1]
  have hsci : ¬(p ≠ 0 ∧ (p < 1 / 10 ^ 4 ∨ 10 ^ 16 ≤ p)) := by
    rcases hrange with h | ⟨hlo, hhi⟩
    · intro hx
      exact hx.1 h
    · intro hx
      rcases hx.2 with h | h
      · linarith
      · linarith
  unfold pyStrPos
  rw [if_neg hsci]
  by_cases hk0 : minK p = 0
  · rw [if_pos hk0]
    refine ⟨toDigits ((p * 10 ^ minK p).num.natAbs), ['0'], rfl, toDigits_ne_nil _,
      toDigits_all_dig _, ?_, by simp, ?_⟩
    · intro c hc
      rw [List.mem_singleton.mp hc]
      decide
    · rw [natFromDigits_toDigits]
      rw [show natFromDigits ['0'] = 0 from rfl]
      rw [hmval, hk0]
      norm_num
  · rw [if_neg hk0]
    have hmlt : (p * 10 ^ minK p).num.natAbs % 10 ^ minK p < 10 ^ minK p :=
      Nat.mod_lt _ (Nat.pos_pow_of_pos _ (by norm_num))
    have hdlen : (toDigits ((p * 10 ^ minK p).num.natAbs % 10 ^ minK p)).length ≤ minK p :=
      toDigits_length_le _ (minK p) (by omega) hmlt
    have hplen : (padZeros (minK p)
        (toDigits ((p * 10 ^ minK p).num.natAbs % 10 ^ minK p))).length = minK p :=
      padZeros_length _ _ hdlen
    refine ⟨toDigits ((p * 10 ^ minK p).num.natAbs / 10 ^ minK p),
      padZeros (minK p) (toDigits ((p * 10 ^ minK p).num.natAbs % 10 ^ minK p)),
      rfl, toDigits_ne_nil _, toDigits_all_dig _,
      padZeros_all_dig _ _ (toDigits_all_dig _), ?_, ?_⟩
    · intro hnil
      rw [hnil] at hplen
      simp at hplen
      exact hk0 hplen.symm
    · rw [natFromDigits_toDigits, natFromDigits_padZeros, natFromDigits_toDigits, hplen]
      have hdm : (p * 10 ^ minK p).num.natAbs / 10 ^ minK p * 10 ^ minK p
          + (p * 10 ^ minK p).num.natAbs % 10 ^ minK p
          = (p * 10 ^ minK p).num.natAbs := by
        have h := Nat.div_add_mod ((p * 10 ^ minK p).num.natAbs) (10 ^ minK p)
        rw [Nat.mul_comm] at h
        exact h
      have h10 : ((10 : ℚ) ^ minK p) ≠ 0 := by positivity
      field_simp
      rw [← hmval]
      exact_mod_cast hdm

theorem cleanStr_pyStr (q : ℚ) (hdec : IsDec q)
    (hrange : q = 0 ∨ (1 / 10 ^ 4 ≤ |q| ∧ |q| < 10 ^ 16)) :
    cleanStr (pyStr q) = .ok (some q) := by
  by_cases hneg : q < 0
  · have hdec2 : IsDec (-q) := by
      obtain ⟨z, k, rfl⟩ := hdec
      exact ⟨-z, k, by push_cast; ring⟩
    have h0 : 0 ≤ -q := by linarith
    have hr2 : -q = 0 ∨ (1 / 10 ^ 4 ≤ -q ∧ -q < 10 ^ 16) := by
      rcases hrange with h | ⟨hlo, hhi⟩
      · exact absurd (h ▸ hneg) (lt_irrefl 0)
      · right
        rw [abs_of_neg hneg] at hlo hhi
        exact ⟨hlo, hhi⟩
    obtain ⟨I, Fr, hdecomp, hI, hIdig, hFdig, _, hval⟩ :=
      pyStrPos_decomp (-q) hdec2 h0 hr2
    unfold pyStr
    rw [if_pos hneg, hdecomp, cleanStr_neg_digits I Fr hI hIdig hFdig, hval, neg_neg]
  · have h0 : 0 ≤ q := not_lt.mp hneg
    have hr2 : q = 0 ∨ (1 / 10 ^ 4 ≤ q ∧ q < 10 ^ 16) := by
      rcases hrange with h | ⟨hlo, hhi⟩
      · exact Or.inl h
      · right
        rw [abs_of_nonneg h0] at hlo hhi
        exact ⟨hlo, hhi⟩
    obtain ⟨I, Fr, hdecomp, hI, hIdig, hFdig, _, hval⟩ :=
      pyStrPos_decomp q hdec h0 hr2
    unfold pyStr
    rw [if_neg hneg, hdecomp, cleanStr_digits I Fr hI hIdig hFdig, hval]

/-- C7 (amended): for every valid input `x` — one that `_clean_dollar`
parses to a decimal `q` — whose value satisfies `q = 0` or
`1e-4 ≤ |q| < 1e16` (so that the float renders in plain decimal notation,
not scientific notation), parsing the string rendering of `q` yields `q`
again. Outside that range the rendering uses scientific notation, whose
exponent the leading-number regex truncates for positive values (see the
counterexample). -/
theorem clean_dollar_roundtrip_amended (x : PyVal) (q : ℚ)
    (hok : _clean_dollar x = .ok (some q))
    (hrange : q = 0 ∨ (1 / 10 ^ 4 ≤ |q| ∧ |q| < 10 ^ 16)) :
    _clean_dollar (.str (pyStr q)) = .ok (some q) :=
  cleanStr_pyStr q (clean_dollar_isDec x q hok) hrange

theorem minKAux_step (q : ℚ) (fuel k : ℕ) :
    minKAux q (fuel + 1) k
      = if (q * 10 ^ k).den = 1 then k else minKAux q fuel (k + 1) := rfl

/-- Counterexample for C7 as stated: the valid input `"0.00001"` parses to
`1/100000`; Python renders that float in scientific notation (`"1e-05"`),
whose reparse stops at the exponent marker: the regex group is `"1"` and
the round-trip yields `1 ≠ 1/100000`. -/
theorem clean_dollar_roundtrip_sci_fails :
    _clean_dollar (.str ("0.00001".toList)) = .ok (some (1/100000)) ∧
    pyStr (1/100000) = "1e-05".toList ∧
    _clean_dollar (.str ("1e-05".toList)) = .ok (some 1) ∧
    (1 : ℚ) ≠ 1/100000 := by
  have hden : ((1:ℚ)/100000).den = 100000 := by norm_num
  have hK : minK (1/100000 : ℚ) = 5 := by
    unfold minK
    rw [hden]
    have s0 : ¬((1/100000 : ℚ) * 10 ^ 0).den = 1 := by norm_num
    have s1 : ¬((1/100000 : ℚ) * 10 ^ 1).den = 1 := by norm_num
    have s2 : ¬((1/100000 : ℚ) * 10 ^ 2).den = 1 := by norm_num
    have s3 : ¬((1/100000 : ℚ) * 10 ^ 3).den = 1 := by norm_num
    have s4 : ¬((1/100000 : ℚ) * 10 ^ 4).den = 1 := by norm_num
    have s5 : ((1/100000 : ℚ) * 10 ^ 5).den = 1 := by norm_num
    rw [minKAux_step, if_neg s0,
        show (100000 : ℕ) = 99999 + 1 from rfl, minKAux_step, if_neg s1,
        show (99999 : ℕ) = 99998 + 1 from rfl, minKAux_step, if_neg s2,
        show (99998 : ℕ) = 99997 + 1 from rfl, minKAux_step, if_neg s3,
        show (99997 : ℕ) = 99996 + 1 from rfl, minKAux_step, if_neg s4,
        show (99996 : ℕ) = 99995 + 1 from rfl, minKAux_step, if_pos s5]
  have hnum : ((1/100000 : ℚ) * 10 ^ 5).num.natAbs = 1 := by
    have h : ((1/100000 : ℚ) * 10 ^ 5).num = 1 := by norm_num
    rw [h]
    rfl
  have hps : pyStr (1/100000 : ℚ) = "1e-05".toList := by
    unfold pyStr
    rw [if_neg (by norm_num)]
    unfold pyStrPos
    rw [if_pos (by constructor <;> norm_num), hK, hnum]
    rfl
  have h1 : _clean_dollar (.str ("0.00001".toList)) = .ok (some (1/100000)) := by
    show cleanStr ("0.00001".toList) = _
    have he : "0.00001".toList = ['0'] ++ '.' :: ['0', '0', '0', '0', '1'] := rfl
    rw [he, cleanStr_digits ['0'] ['0', '0', '0', '0', '1'] (by simp) (by decide) (by decide)]
    rw [show natFromDigits ['0'] = 0 from rfl,
        show natFromDigits ['0', '0', '0', '0', '1'] = 1 from rfl]
    simp only [Except.ok.injEq, Option.some.injEq]
    norm_num
  have h3 : _clean_dollar (.str ("1e-05".toList)) = .ok (some 1) := by
    show cleanStr ("1e-05".toList) = _
    unfold cleanStr
    dsimp only
    rw [show pyStrip ("1e-05".toList) = "1e-05".toList from rfl,
        if_neg (by decide),
        show matchToken ("1e-05".toList) = some ['1'] from rfl]
    dsimp only
    rw [show (['1'].filter (fun c => !(decide (c = ',')))) = ['1'] from rfl,
        show pyFloat ['1'] = .ok (1 * ((natFromDigits ['1'] : ℕ) : ℚ)) from rfl]
    rw [show natFromDigits ['1'] = 1 from rfl]
    simp only [Except.ok.injEq, Option.some.injEq]
    norm_num
  exact ⟨h1, hps, h3, by norm_num⟩

/-- Witness for C7 (amended): `"0.5"` parses to `1/2`, which lies in the
plain-notation range, and the rendered string parses back to `1/2`. -/
theorem clean_dollar_roundtrip_witness :
    _clean_dollar (.str ("0.5".toList)) = .ok (some (1/2)) ∧
    _clean_dollar (.str (pyStr (1/2))) = .ok (some (1/2)) := by
  have hok : _clean_dollar (.str ("0.5".toList)) = .ok (some (1/2)) := by
    show cleanStr ("0.5".toList) = _
    have he : "0.5".toList = ['0'] ++ '.' :: ['5'] := rfl
    rw [he, cleanStr_digits ['0'] ['5'] (by simp) (by decide) (by decide)]
    rw [show natFromDigits ['0'] = 0 from rfl, show natFromDigits ['5'] = 5 from rfl]
    simp only [Except.ok.injEq, Option.some.injEq]
    norm_num
  have habs : |(1 : ℚ)/2| = 1/2 := abs_of_pos (by norm_num)
  exact ⟨hok, clean_dollar_roundtrip_amended (.str ("0.5".toList)) (1/2) hok
    (Or.inr ⟨by rw [habs]; norm_num, by rw [habs]; norm_num⟩)⟩
